import Mathlib

set_option maxHeartbeats 1000000

/-!
Verification development for the depsgraph update-flush core
(`source/blender/depsgraph/intern/eval/deg_eval_flush.cc`).

The embedding is a shallow, executable model of the flush pipeline:
per-node mutable state is modelled as maps from node ids, the worklist
as a list (front = head), and externally observable effects (editor
notification, recalc bookkeeping, worklist insertions, scheduled-flag
transitions) as an event trace.  External collaborators that live
outside this translation unit (`tag_update` on the copy-on-write
component, `deg_copy_on_write_is_expanded`, `lib_id_recalc_tag`,
`deg_editors_id_update`) are modelled at their interface boundary as
trace events or node attributes, following the spec's collaborator
contracts.
-/

namespace DEG

/-- Operation flag bit for operations pending re-evaluation (bit 0 in the source). -/
def DEPSOP_FLAG_NEEDS_UPDATE : Nat := 1

/-- Operation flag bit for directly modified operations (bit 1 in the source). -/
def DEPSOP_FLAG_DIRECTLY_MODIFIED : Nat := 2

/-- The operation kind excluded from the blanket component re-tag. -/
def DEG_OPCODE_PARTICLE_SETTINGS_EVAL : Nat := 57

/-- Component kind for bone components. -/
def DEG_NODE_TYPE_BONE : Nat := 1

/-- Component kind for pose evaluation components. -/
def DEG_NODE_TYPE_EVAL_POSE : Nat := 2

/-- Component kind for copy-on-write components. -/
def DEG_NODE_TYPE_COPY_ON_WRITE : Nat := 3

/-- A generic component kind with no special handling (e.g. geometry). -/
def DEG_NODE_TYPE_GEOMETRY : Nat := 5

/-- Component traversal marker: not yet seen this flush. -/
def COMPONENT_STATE_NONE : Nat := 0

/-- Component traversal marker: entry operation pushed by the bone rule. -/
def COMPONENT_STATE_SCHEDULED : Nat := 1

/-- Component traversal marker: component handler has run. -/
def COMPONENT_STATE_DONE : Nat := 2

/-- Mask of recalc tag bits copied from the original to the CoW datablock. -/
def LIB_TAG_ID_RECALC_ALL : Nat := 12288

/-- Static attributes of one operation node: its id, kind tag, outbound
links (ids of target operation nodes) and owning component id. -/
structure OperationDepsNode where
  opId : Nat
  opcode : Nat
  outlinks : List Nat
  owner : Nat
deriving DecidableEq, Repr

/-- Static attributes of one component node: id, kind tag, owning entity id,
owned operation ids, designated entry operation and the copy-on-write
dependency capability flag. -/
structure ComponentDepsNode where
  compId : Nat
  ctype : Nat
  owner : Nat
  operations : List Nat
  entryOperation : Nat
  depends_on_cow : Bool
deriving DecidableEq, Repr

/-- Static attributes of one entity (ID) node: id, owned component ids, the
original datablock's tag field and whether its CoW copy is expanded
(the `deg_copy_on_write_is_expanded` collaborator, modelled as an
attribute since the expansion state does not change during a flush). -/
structure IDDepsNode where
  idNodeId : Nat
  components : List Nat
  origTag : Nat
  cowExpanded : Bool
deriving DecidableEq, Repr

/-- The dependency graph: flat stores of all operation, entity and component
nodes.  Cross references (owner fields, component lists, outlinks) are by
node id, standing in for the C pointers. -/
structure Depsgraph where
  operations : List OperationDepsNode
  id_nodes : List IDDepsNode
  components : List ComponentDepsNode
deriving DecidableEq, Repr

/-- Externally observable events of one flush, in order of occurrence.
Worklist insertions and scheduled-flag transitions are instrumented so
the testable properties about them can be stated; the last four mirror
calls into external collaborators. -/
inductive Event where
  | pushBack (op : Nat)
  | pushFront (op : Nat)
  | poseEntryPush (comp : Nat) (op : Nat)
  | schedFlip (op : Nat)
  | entityVisit (idn : Nat)
  | editorsIdUpdate (idn : Nat)
  | libIdRecalcTag (idn : Nat)
  | libIdRecalcDataTag (idn : Nat)
  | tagUpdate (comp : Nat)
deriving DecidableEq, Repr

/-- Mutable per-cycle state: the transient traversal markers of all nodes,
the CoW datablock tag fields, and the graph's entry set. -/
@[ext] structure FlushState where
  scheduled : Nat → Bool
  opFlag : Nat → Nat
  compDone : Nat → Nat
  idDone : Nat → Bool
  cowTag : Nat → Nat
  entry_tags : List Nat

/-- Pointwise update of a map. -/
def updF {α : Type} (f : Nat → α) (i : Nat) (v : α) : Nat → α :=
  fun j => if j = i then v else f j

/-- Resolve an operation id to its node (the first store entry with that id). -/
def findOp (g : Depsgraph) (i : Nat) : Option OperationDepsNode :=
  g.operations.find? (fun op => op.opId == i)

/-- Resolve a component id to its node. -/
def findCompNode (g : Depsgraph) (c : Nat) : Option ComponentDepsNode :=
  g.components.find? (fun k => k.compId == c)

/-- Resolve an entity id to its node. -/
def findIdNode (g : Depsgraph) (i : Nat) : Option IDDepsNode :=
  g.id_nodes.find? (fun k => k.idNodeId == i)

/-- The entity's `find_component(type)` method: first owned component of the
given kind. -/
def find_component (g : Depsgraph) (idn : IDDepsNode) (t : Nat) :
    Option ComponentDepsNode :=
  (idn.components.filterMap (findCompNode g)).find? (fun c => c.ctype == t)

/-- Reset one operation node's `scheduled` flag
(`flush_init_operation_node_func`). -/
def flush_init_operation_node_func (s : FlushState) (op : OperationDepsNode) :
    FlushState :=
  { s with scheduled := updF s.scheduled op.opId false }

/-- Reset one component's `done` marker to NONE. -/
def comp_reset_step (s : FlushState) (c : Nat) : FlushState :=
  { s with compDone := updF s.compDone c COMPONENT_STATE_NONE }

/-- Reset one entity node's `done` flag and all its components' markers
(`flush_init_id_node_func`). -/
def flush_init_id_node_func (s : FlushState) (idn : IDDepsNode) : FlushState :=
  idn.components.foldl comp_reset_step
    { s with idDone := updF s.idDone idn.idNodeId false }

/-- State reset, `flush_prepare`: clear every operation's `scheduled` flag,
every entity's `done` flag, and every owned component's `done` marker.
The source shards this over threads above 256 nodes; each per-node reset
is independent, so the sequential fold is the same function. -/
def flush_prepare (g : Depsgraph) (s : FlushState) : FlushState :=
  g.id_nodes.foldl flush_init_id_node_func
    (g.operations.foldl flush_init_operation_node_func s)

/-- One entry-scheduling iteration: append the entry operation to the queue
and mark it scheduled, recording the insertion and the flag transition. -/
def entry_step (acc : List Nat × FlushState × List Event) (i : Nat) :
    List Nat × FlushState × List Event :=
  (acc.1 ++ [i],
   { acc.2.1 with scheduled := updF acc.2.1.scheduled i true },
   acc.2.2 ++ [Event.pushBack i] ++
     (if acc.2.1.scheduled i then [] else [Event.schedFlip i]))

/-- Entry scheduler, `flush_schedule_entrypoints`: seed the worklist from the
graph's entry set. -/
def flush_schedule_entrypoints (s : FlushState) :
    List Nat × FlushState × List Event :=
  s.entry_tags.foldl entry_step ([], s, [])

/-- Entity handler, `flush_handle_id_node`: on first visit merge the recalc
tag bits into the CoW copy, notify the editors if the copy is expanded,
and record both recalc bookkeeping calls; later visits are no-ops
guarded by the entity's `done` flag.  Every invocation records an
`entityVisit` event. -/
def flush_handle_id_node (idn : IDDepsNode) (s : FlushState) (tr : List Event) :
    FlushState × List Event :=
  let tr1 := tr ++ [Event.entityVisit idn.idNodeId]
  if s.idDone idn.idNodeId then (s, tr1)
  else
    ({ s with
        idDone := updF s.idDone idn.idNodeId true,
        cowTag := updF s.cowTag idn.idNodeId
          (s.cowTag idn.idNodeId ||| (idn.origTag &&& LIB_TAG_ID_RECALC_ALL)) },
     tr1 ++
       (if idn.cowExpanded then [Event.editorsIdUpdate idn.idNodeId] else []) ++
       [Event.libIdRecalcTag idn.idNodeId, Event.libIdRecalcDataTag idn.idNodeId])

/-- One blanket re-tag iteration: set `NEEDS_UPDATE` on an owned operation
unless its kind is the excluded particle-settings-evaluation kind. -/
def tag_step (g : Depsgraph) (s : FlushState) (oid : Nat) : FlushState :=
  match findOp g oid with
  | some op =>
    if op.opcode = DEG_OPCODE_PARTICLE_SETTINGS_EVAL then s
    else { s with opFlag := updF s.opFlag oid (s.opFlag oid ||| DEPSOP_FLAG_NEEDS_UPDATE) }
  | none => s

/-- Copy-on-write invalidation of the component handler: when CoW is active
and the component depends on a CoW proxy, re-tag the sibling CoW
component through the graph's external tagging entry point.  That entry
point marks the component dirty for a future flush; it is modelled at
the interface boundary as a `tagUpdate` event. -/
def cow_retag_events (g : Depsgraph) (idn : IDDepsNode)
    (comp : ComponentDepsNode) (use_copy_on_write : Bool) (tr : List Event) :
    List Event :=
  if use_copy_on_write && comp.depends_on_cow then
    match find_component g idn DEG_NODE_TYPE_COPY_ON_WRITE with
    | some cow_comp => tr ++ [Event.tagUpdate cow_comp.compId]
    | none => tr
  else tr

/-- Bone rule of the component handler: when the handled component is a bone
component, push the sibling pose component's entry operation to the
worklist front if that component's marker is still NONE, and mark it
SCHEDULED. -/
def bone_rule (g : Depsgraph) (idn : IDDepsNode) (comp : ComponentDepsNode)
    (queue : List Nat) (s : FlushState) (tr : List Event) :
    List Nat × FlushState × List Event :=
  if comp.ctype = DEG_NODE_TYPE_BONE then
    match find_component g idn DEG_NODE_TYPE_EVAL_POSE with
    | some pose_comp =>
      if s.compDone pose_comp.compId = COMPONENT_STATE_NONE then
        (pose_comp.entryOperation :: queue,
         { s with
            compDone := updF s.compDone pose_comp.compId COMPONENT_STATE_SCHEDULED },
         tr ++ [Event.poseEntryPush pose_comp.compId pose_comp.entryOperation])
      else (queue, s, tr)
    | none => (queue, s, tr)
  else (queue, s, tr)

/-- Component handler, `flush_handle_component_node`: guarded by `done`
(set to DONE immediately on first handling), then (1) re-tag the sibling
CoW component through the external tagging entry point, (2) blanket
re-tag owned operations, (3) the bone rule. -/
def flush_handle_component_node (g : Depsgraph) (idn : IDDepsNode)
    (comp : ComponentDepsNode) (use_copy_on_write : Bool) (queue : List Nat)
    (s : FlushState) (tr : List Event) : List Nat × FlushState × List Event :=
  if s.compDone comp.compId = COMPONENT_STATE_DONE then (queue, s, tr)
  else
    bone_rule g idn comp queue
      (comp.operations.foldl (tag_step g)
        { s with compDone := updF s.compDone comp.compId COMPONENT_STATE_DONE })
      (cow_retag_events g idn comp use_copy_on_write tr)

/-- One child-scheduling iteration of `flush_schedule_children`: an
unscheduled link target becomes the bypass result if none is chosen yet,
otherwise it is pushed to the worklist front; either way its `scheduled`
flag flips to true. -/
def child_step (acc : Option Nat × List Nat × FlushState × List Event)
    (to_node : Nat) : Option Nat × List Nat × FlushState × List Event :=
  if acc.2.2.1.scheduled to_node then acc
  else
    let withSched :=
      { acc.2.2.1 with scheduled := updF acc.2.2.1.scheduled to_node true }
    match acc.1 with
    | some r =>
      (some r, to_node :: acc.2.1, withSched,
       acc.2.2.2 ++ [Event.pushFront to_node, Event.schedFlip to_node])
    | none =>
      (some to_node, acc.2.1, withSched, acc.2.2.2 ++ [Event.schedFlip to_node])

/-- Child scheduler, `flush_schedule_children`: walk the operation's
outbound links, scheduling every not-yet-scheduled target; the first such
target bypasses the queue as the next active node. -/
def flush_schedule_children (op_node : OperationDepsNode) (queue : List Nat)
    (s : FlushState) (tr : List Event) :
    Option Nat × List Nat × FlushState × List Event :=
  op_node.outlinks.foldl child_step (none, queue, s, tr)

/-- State of the propagation loop: the pending worklist, the current active
node, the node state and the trace so far. -/
structure LoopState where
  queue : List Nat
  active : Option Nat
  st : FlushState
  trace : List Event

/-- Tag the active operation node as required for update
(`op_node->flag |= DEPSOP_FLAG_NEEDS_UPDATE`). -/
def nuTag (st : FlushState) (n : Nat) : FlushState :=
  { st with opFlag := updF st.opFlag n (st.opFlag n ||| DEPSOP_FLAG_NEEDS_UPDATE) }

/-- Body of one active-node visit once the owner chain is resolved: tag the
node, run the entity handler, the component handler, then schedule its
children; the bypass child becomes the next active node. -/
def processNodeMain (g : Depsgraph) (use_copy_on_write : Bool)
    (op_node : OperationDepsNode) (comp_node : ComponentDepsNode)
    (idn : IDDepsNode) (n : Nat) (queue : List Nat) (st : FlushState)
    (tr : List Event) : LoopState :=
  let p1 := flush_handle_id_node idn (nuTag st n) tr
  let p2 := flush_handle_component_node g idn comp_node use_copy_on_write
    queue p1.1 p1.2
  let p3 := flush_schedule_children op_node p2.1 p2.2.1 p2.2.2
  ⟨p3.2.1, p3.1, p3.2.2.1, p3.2.2.2⟩

/-- Process the current active node.  The dangling-reference branches are
unreachable on graphs whose owner chains resolve (the source asserts
this and dereferences unconditionally). -/
def processNode (g : Depsgraph) (use_copy_on_write : Bool) (n : Nat)
    (queue : List Nat) (st : FlushState) (tr : List Event) : LoopState :=
  match findOp g n with
  | none => ⟨queue, none, st, tr⟩
  | some op_node =>
    match findCompNode g op_node.owner with
    | none => ⟨queue, none, nuTag st n, tr⟩
    | some comp_node =>
      match findIdNode g comp_node.owner with
      | none => ⟨queue, none, nuTag st n, tr⟩
      | some idn =>
        processNodeMain g use_copy_on_write op_node comp_node idn n queue st tr

/-- One step of the propagation loop: process the active node if there is
one, otherwise pop the next worklist entry into the active slot. -/
def flushStep (g : Depsgraph) (use_copy_on_write : Bool) (ls : LoopState) :
    LoopState :=
  match ls.active with
  | some n => processNode g use_copy_on_write n ls.queue ls.st ls.trace
  | none =>
    match ls.queue with
    | [] => ls
    | q :: rest => ⟨rest, some q, ls.st, ls.trace⟩

/-- The loop has terminated: no active node and an empty worklist. -/
def isDoneB (ls : LoopState) : Bool :=
  ls.active.isNone && ls.queue.isEmpty

/-- Fuel-indexed iteration of the propagation loop. -/
def flushLoop (g : Depsgraph) (use_copy_on_write : Bool) :
    Nat → LoopState → LoopState
  | 0, ls => ls
  | fuel + 1, ls =>
    if isDoneB ls then ls else flushLoop g use_copy_on_write fuel (flushStep g use_copy_on_write ls)

/-- All operation ids that can ever be flipped to `scheduled` during the
loop: the targets of all outbound links. -/
def touchable (g : Depsgraph) : List Nat :=
  ((g.operations.map (fun op => op.outlinks)).flatten).dedup

/-- Number of touchable operations not yet scheduled. -/
def schedMeasure (g : Depsgraph) (s : FlushState) : Nat :=
  (touchable g).countP (fun i => !s.scheduled i)

/-- Number of components still in the untouched `NONE` state. -/
def compMeasure (g : Depsgraph) (s : FlushState) : Nat :=
  ((g.components.map (fun c => c.compId)).dedup).countP
    (fun c => s.compDone c == COMPONENT_STATE_NONE)

/-- Contribution of the active-node slot to the termination measure. -/
def activeWeight : Option Nat → Nat
  | some _ => 1
  | none => 0

/-- Termination measure of the propagation loop: every worklist insertion is
paid for by a scheduled-flag flip or a component leaving `NONE`. -/
def loopMeasure (g : Depsgraph) (ls : LoopState) : Nat :=
  2 * schedMeasure g ls.st + 2 * compMeasure g ls.st + 2 * ls.queue.length +
    activeWeight ls.active

/-- The loop state right after reset and entry scheduling. -/
def flushInitLS (g : Depsgraph) (s : FlushState) : LoopState :=
  let p := flush_schedule_entrypoints (flush_prepare g s)
  ⟨p.1, none, p.2.1, p.2.2⟩

/-- Run the propagation loop to completion (the measure is a sufficient
fuel, proved below). -/
def flushRunLS (g : Depsgraph) (use_copy_on_write : Bool) (s : FlushState) :
    LoopState :=
  flushLoop g use_copy_on_write (loopMeasure g (flushInitLS g s)) (flushInitLS g s)

/-- The full flush entry point, `deg_graph_flush_updates`: early out on an
empty entry set, otherwise reset, seed and propagate.  Returns the final
node state and the trace of observable events. -/
def deg_graph_flush_updates (use_copy_on_write : Bool) (g : Depsgraph)
    (s : FlushState) : FlushState × List Event :=
  if s.entry_tags.length = 0 then (s, [])
  else ((flushRunLS g use_copy_on_write s).st, (flushRunLS g use_copy_on_write s).trace)

/-- Per-operation body of `deg_graph_clear_tags`: clear the two pending
update bits, keeping all other flag bits. -/
def graph_clear_func (s : FlushState) (node : OperationDepsNode) : FlushState :=
  let cleared := Nat.ldiff (s.opFlag node.opId)
    (DEPSOP_FLAG_DIRECTLY_MODIFIED ||| DEPSOP_FLAG_NEEDS_UPDATE)
  { s with opFlag := updF s.opFlag node.opId cleared }

/-- Tag clear, `deg_graph_clear_tags`: clear the pending-update flag bits of
every operation, then empty the entry set. -/
def deg_graph_clear_tags (g : Depsgraph) (s : FlushState) : FlushState :=
  let s1 := g.operations.foldl graph_clear_func s
  { s1 with entry_tags := [] }

/-- The operation's `NEEDS_UPDATE` bit is set. -/
def hasNeedsUpdate (s : FlushState) (i : Nat) : Bool :=
  (s.opFlag i).testBit 0

/-- Number of worklist insertions of operation `i` recorded in a trace
(entry push, child push, and bone-rule pose entry push). -/
def pushCount (i : Nat) (tr : List Event) : Nat :=
  tr.countP (fun e =>
    match e with
    | Event.pushBack j => j == i
    | Event.pushFront j => j == i
    | Event.poseEntryPush _ j => j == i
    | _ => false)

/-- Number of worklist insertions of `i` that are guarded by the `scheduled`
flag (entry push and child push; excludes the bone-rule push). -/
def guardedPushCount (i : Nat) (tr : List Event) : Nat :=
  tr.countP (fun e =>
    match e with
    | Event.pushBack j => j == i
    | Event.pushFront j => j == i
    | _ => false)

/-- Number of false-to-true transitions of operation `i`'s `scheduled` flag. -/
def flipCount (i : Nat) (tr : List Event) : Nat :=
  tr.countP (fun e => match e with | Event.schedFlip j => j == i | _ => false)

/-- Number of bone-rule pushes of pose component `p`'s entry operation. -/
def posePushCount (p : Nat) (tr : List Event) : Nat :=
  tr.countP (fun e => match e with | Event.poseEntryPush q _ => q == p | _ => false)

/-- Number of entity-handler invocations for entity `e`. -/
def entityVisitCount (e : Nat) (tr : List Event) : Nat :=
  tr.countP (fun ev => match ev with | Event.entityVisit j => j == e | _ => false)

/-- Number of editor notifications for entity `e`. -/
def notifyCount (e : Nat) (tr : List Event) : Nat :=
  tr.countP (fun ev => match ev with | Event.editorsIdUpdate j => j == e | _ => false)

/-- Number of general recalc bookkeeping calls for entity `e`. -/
def recalcCount (e : Nat) (tr : List Event) : Nat :=
  tr.countP (fun ev => match ev with | Event.libIdRecalcTag j => j == e | _ => false)

/-- Number of data recalc bookkeeping calls for entity `e`. -/
def recalcDataCount (e : Nat) (tr : List Event) : Nat :=
  tr.countP (fun ev => match ev with | Event.libIdRecalcDataTag j => j == e | _ => false)

/-- Reachability from the entry set along outbound links, through resolvable
operation nodes. -/
inductive Reaches (g : Depsgraph) (entry : List Nat) : Nat → Prop where
  | base (i : Nat) : i ∈ entry → (findOp g i).isSome = true → Reaches g entry i
  | step (i j : Nat) (op : OperationDepsNode) : Reaches g entry i →
      findOp g i = some op → j ∈ op.outlinks → (findOp g j).isSome = true →
      Reaches g entry j

/-- Owner chains resolve: every operation's component and that component's
entity exist in the graph (the source asserts this shape). -/
def wfOwnersB (g : Depsgraph) : Bool :=
  g.operations.all (fun op =>
    match findCompNode g op.owner with
    | some comp => (findIdNode g comp.owner).isSome
    | none => false)

/-- A fresh flush state: all markers cleared, all flags zero, with the given
entry set. -/
def baseState (entry : List Nat) : FlushState :=
  ⟨fun _ => false, fun _ => 0, fun _ => 0, fun _ => false, fun _ => 0, entry⟩

/-- Example graph: a bone component (operation 0) and its sibling pose
component (entry operation 1) under one entity. -/
def gBonePose : Depsgraph :=
  ⟨[⟨0, 0, [], 10⟩, ⟨1, 0, [], 11⟩],
   [⟨100, [10, 11], 0, false⟩],
   [⟨10, DEG_NODE_TYPE_BONE, 100, [0], 0, false⟩,
    ⟨11, DEG_NODE_TYPE_EVAL_POSE, 100, [1], 1, false⟩]⟩

/-- Entry set for `gBonePose`: both the bone operation and the pose entry
operation are externally tagged. -/
def sBonePose : FlushState := baseState [0, 1]

/-- Example graph: one geometry component owning two unlinked operations
under one unexpanded entity. -/
def gSibling : Depsgraph :=
  ⟨[⟨0, 0, [], 10⟩, ⟨1, 0, [], 10⟩],
   [⟨100, [10], 0, false⟩],
   [⟨10, DEG_NODE_TYPE_GEOMETRY, 100, [0, 1], 0, false⟩]⟩

/-- Entry set for `gSibling`: only operation 0. -/
def sSibling : FlushState := baseState [0]

/-- Example graph: a two-operation chain 0 to 1 in one component under an
expanded entity. -/
def gChain : Depsgraph :=
  ⟨[⟨0, 0, [1], 10⟩, ⟨1, 0, [], 10⟩],
   [⟨100, [10], 0, true⟩],
   [⟨10, DEG_NODE_TYPE_GEOMETRY, 100, [0, 1], 0, false⟩]⟩

/-- Entry set for `gChain`: only operation 0. -/
def sChain : FlushState := baseState [0]

/-- Example graph: one component owning a normal operation and a
particle-settings-evaluation operation. -/
def gParticle : Depsgraph :=
  ⟨[⟨0, 0, [], 10⟩, ⟨2, DEG_OPCODE_PARTICLE_SETTINGS_EVAL, [], 10⟩],
   [⟨100, [10], 0, false⟩],
   [⟨10, DEG_NODE_TYPE_GEOMETRY, 100, [0, 2], 0, false⟩]⟩

/-- Fresh state for `gParticle` with entry set {0}. -/
def sParticle : FlushState := baseState [0]

/-- Example graph: component 10 is on the propagation path, component 20 is
not. -/
def gStale : Depsgraph :=
  ⟨[⟨0, 0, [], 10⟩, ⟨1, 0, [], 20⟩],
   [⟨100, [10, 20], 0, false⟩],
   [⟨10, DEG_NODE_TYPE_GEOMETRY, 100, [0], 0, false⟩,
    ⟨20, DEG_NODE_TYPE_GEOMETRY, 100, [1], 1, false⟩]⟩

/-- State for `gStale` in which component 20's `done` marker is still DONE
from a previous flush cycle. -/
def sStale : FlushState :=
  ⟨fun _ => false, fun _ => 0,
   fun c => if c = 20 then COMPONENT_STATE_DONE else COMPONENT_STATE_NONE,
   fun _ => false, fun _ => 0, [0]⟩

/-! Generic counting helpers. -/

theorem countP_le_of_imp {α : Type} (l : List α) (p q : α → Bool)
    (h : ∀ a ∈ l, p a = true → q a = true) : l.countP p ≤ l.countP q := by
  induction l with
  | nil => simp
  | cons a t ih =>
    have ht : t.countP p ≤ t.countP q :=
      ih (fun a ha => h a (List.mem_cons_of_mem _ ha))
    have hite : (if p a then 1 else 0) ≤ (if q a then 1 else 0) := by
      by_cases hpa : p a = true
      · simp [hpa, h a (List.mem_cons_self _ _) hpa]
      · simp [hpa]
    simp only [List.countP_cons]
    exact Nat.add_le_add ht hite

theorem countP_lt_flip {α : Type} (l : List α) (p q : α → Bool) (i : α)
    (hi : i ∈ l) (himp : ∀ a ∈ l, q a = true → p a = true)
    (hp : p i = true) (hq : q i = false) : l.countP q < l.countP p := by
  induction l with
  | nil => cases hi
  | cons a t ih =>
    rcases List.mem_cons.mp hi with rfl | hmem
    · have ht : t.countP q ≤ t.countP p :=
        countP_le_of_imp t q p (fun a ha => himp a (List.mem_cons_of_mem _ ha))
      simp only [List.countP_cons, hp, hq]
      simp only [if_true]
      simp
      exact Nat.lt_succ_of_le ht
    · have ht : t.countP q < t.countP p :=
        ih hmem (fun a ha => himp a (List.mem_cons_of_mem _ ha))
      have hite : (if q a then 1 else 0) ≤ (if p a then 1 else 0) := by
        by_cases hqa : q a = true
        · simp [hqa, himp a (List.mem_cons_self _ _) hqa]
        · simp [hqa]
      simp only [List.countP_cons]
      exact Nat.add_lt_add_of_lt_of_le ht hite

/-! Lookup helpers. -/

theorem mem_of_findOp {g : Depsgraph} {i : Nat} {op : OperationDepsNode}
    (h : findOp g i = some op) : op ∈ g.operations :=
  List.mem_of_find?_eq_some h

theorem findOp_opId {g : Depsgraph} {i : Nat} {op : OperationDepsNode}
    (h : findOp g i = some op) : op.opId = i := by
  have := List.find?_some h
  simpa using this

theorem findOp_of_mem {g : Depsgraph} {op : OperationDepsNode}
    (h : op ∈ g.operations) : (findOp g op.opId).isSome = true := by
  exact List.find?_isSome.mpr ⟨op, h, beq_self_eq_true _⟩

theorem mem_of_findCompNode {g : Depsgraph} {c : Nat} {k : ComponentDepsNode}
    (h : findCompNode g c = some k) : k ∈ g.components :=
  List.mem_of_find?_eq_some h

theorem findCompNode_compId {g : Depsgraph} {c : Nat} {k : ComponentDepsNode}
    (h : findCompNode g c = some k) : k.compId = c := by
  have := List.find?_some h
  simpa using this

theorem mem_of_findIdNode {g : Depsgraph} {e : Nat} {idn : IDDepsNode}
    (h : findIdNode g e = some idn) : idn ∈ g.id_nodes :=
  List.mem_of_find?_eq_some h

theorem findIdNode_idNodeId {g : Depsgraph} {e : Nat} {idn : IDDepsNode}
    (h : findIdNode g e = some idn) : idn.idNodeId = e := by
  have := List.find?_some h
  simpa using this

theorem findIdNode_self {g : Depsgraph} {e : Nat} {idn : IDDepsNode}
    (h : findIdNode g e = some idn) : findIdNode g idn.idNodeId = some idn := by
  rw [findIdNode_idNodeId h]; exact h

theorem find_component_mem {g : Depsgraph} {idn : IDDepsNode} {t : Nat}
    {c : ComponentDepsNode} (h : find_component g idn t = some c) :
    c ∈ g.components := by
  have h1 := List.mem_of_find?_eq_some h
  rcases List.mem_filterMap.mp h1 with ⟨a, _, ha⟩
  exact mem_of_findCompNode ha

theorem wfOwnersB_resolve {g : Depsgraph} (hwf : wfOwnersB g = true)
    {n : Nat} {op : OperationDepsNode} (h : findOp g n = some op) :
    ∃ comp idn, findCompNode g op.owner = some comp ∧
      findIdNode g comp.owner = some idn := by
  have hmem := mem_of_findOp h
  have hall := List.all_eq_true.mp hwf op hmem
  rcases hcomp : findCompNode g op.owner with _ | comp
  · rw [hcomp] at hall; simp at hall
  · rw [hcomp] at hall
    have hall2 : (findIdNode g comp.owner).isSome = true := hall
    rcases Option.isSome_iff_exists.mp hall2 with ⟨idn, hid⟩
    exact ⟨comp, idn, rfl, hid⟩

/-! Characterization of the state reset. -/

theorem op_fold_fields (l : List OperationDepsNode) : ∀ s : FlushState,
    (l.foldl flush_init_operation_node_func s).opFlag = s.opFlag ∧
    (l.foldl flush_init_operation_node_func s).compDone = s.compDone ∧
    (l.foldl flush_init_operation_node_func s).idDone = s.idDone ∧
    (l.foldl flush_init_operation_node_func s).cowTag = s.cowTag ∧
    (l.foldl flush_init_operation_node_func s).entry_tags = s.entry_tags := by
  induction l with
  | nil => intro s; exact ⟨rfl, rfl, rfl, rfl, rfl⟩
  | cons a t ih => intro s; exact ih (flush_init_operation_node_func s a)

theorem op_fold_sched (l : List OperationDepsNode) : ∀ (s : FlushState) (j : Nat),
    (l.foldl flush_init_operation_node_func s).scheduled j =
      if l.any (fun op => op.opId == j) then false else s.scheduled j := by
  induction l with
  | nil => intro s j; simp
  | cons a t ih =>
    intro s j
    simp only [List.foldl_cons, List.any_cons]
    rw [ih]
    by_cases h : a.opId = j
    · simp [flush_init_operation_node_func, updF, h]
    · have h2 : ¬(j = a.opId) := fun hc => h hc.symm
      simp [flush_init_operation_node_func, updF, h, h2]

theorem comp_fold_fields (l : List Nat) : ∀ s : FlushState,
    (l.foldl comp_reset_step s).scheduled = s.scheduled ∧
    (l.foldl comp_reset_step s).opFlag = s.opFlag ∧
    (l.foldl comp_reset_step s).idDone = s.idDone ∧
    (l.foldl comp_reset_step s).cowTag = s.cowTag ∧
    (l.foldl comp_reset_step s).entry_tags = s.entry_tags := by
  induction l with
  | nil => intro s; exact ⟨rfl, rfl, rfl, rfl, rfl⟩
  | cons a t ih => intro s; exact ih (comp_reset_step s a)

theorem id_fold_fields (l : List IDDepsNode) : ∀ s : FlushState,
    (l.foldl flush_init_id_node_func s).scheduled = s.scheduled ∧
    (l.foldl flush_init_id_node_func s).opFlag = s.opFlag ∧
    (l.foldl flush_init_id_node_func s).cowTag = s.cowTag ∧
    (l.foldl flush_init_id_node_func s).entry_tags = s.entry_tags := by
  induction l with
  | nil => intro s; exact ⟨rfl, rfl, rfl, rfl⟩
  | cons a t ih =>
    intro s
    rcases ih (flush_init_id_node_func s a) with ⟨h1, h2, h3, h4⟩
    rcases comp_fold_fields a.components
      { s with idDone := updF s.idDone a.idNodeId false } with ⟨k1, k2, k3, k4, k5⟩
    refine ⟨?_, ?_, ?_, ?_⟩ <;>
      simp only [List.foldl_cons, flush_init_id_node_func] at * <;>
      first
      | exact h1.trans k1
      | exact h2.trans k2
      | exact h3.trans k4
      | exact h4.trans k5

theorem id_fold_idDone (l : List IDDepsNode) : ∀ (s : FlushState) (e : Nat),
    (l.foldl flush_init_id_node_func s).idDone e =
      if l.any (fun idn => idn.idNodeId == e) then false else s.idDone e := by
  induction l with
  | nil => intro s e; simp
  | cons a t ih =>
    intro s e
    simp only [List.foldl_cons, List.any_cons]
    rw [ih]
    have hcomp := (comp_fold_fields a.components
      { s with idDone := updF s.idDone a.idNodeId false }).2.2.1
    simp only [flush_init_id_node_func]
    rw [hcomp]
    by_cases h : a.idNodeId = e
    · simp [updF, h]
    · have h2 : ¬(e = a.idNodeId) := fun hc => h hc.symm
      simp [updF, h, h2]

theorem flush_prepare_fields (g : Depsgraph) (s : FlushState) :
    (flush_prepare g s).opFlag = s.opFlag ∧
    (flush_prepare g s).cowTag = s.cowTag ∧
    (flush_prepare g s).entry_tags = s.entry_tags := by
  rcases op_fold_fields g.operations s with ⟨h1, _, _, h4, h5⟩
  rcases id_fold_fields g.id_nodes
    (g.operations.foldl flush_init_operation_node_func s) with ⟨_, k2, k3, k4⟩
  exact ⟨k2.trans h1, k3.trans h4, k4.trans h5⟩

theorem flush_prepare_sched_of_op {g : Depsgraph} {j : Nat}
    (h : (findOp g j).isSome = true) (s : FlushState) :
    (flush_prepare g s).scheduled j = false := by
  rcases Option.isSome_iff_exists.mp h with ⟨op, hop⟩
  have hmem := mem_of_findOp hop
  have hid := findOp_opId hop
  have hsched := (id_fold_fields g.id_nodes
    (g.operations.foldl flush_init_operation_node_func s)).1
  unfold flush_prepare
  rw [hsched, op_fold_sched]
  have hany : g.operations.any (fun op2 => op2.opId == j) = true :=
    List.any_eq_true.mpr ⟨op, hmem, by simp [hid]⟩
  simp [hany]

theorem flush_prepare_idDone_of {g : Depsgraph} {e : Nat}
    (h : (findIdNode g e).isSome = true) (s : FlushState) :
    (flush_prepare g s).idDone e = false := by
  rcases Option.isSome_iff_exists.mp h with ⟨idn, hidn⟩
  have hmem := mem_of_findIdNode hidn
  have hid := findIdNode_idNodeId hidn
  unfold flush_prepare
  rw [id_fold_idDone]
  have hany : g.id_nodes.any (fun k => k.idNodeId == e) = true :=
    List.any_eq_true.mpr ⟨idn, hmem, by simp [hid]⟩
  simp [hany]

/-! Characterization of the entry scheduler. -/

theorem entry_fold_fields (l : List Nat) :
    ∀ acc : List Nat × FlushState × List Event,
    (l.foldl entry_step acc).2.1.opFlag = acc.2.1.opFlag ∧
    (l.foldl entry_step acc).2.1.compDone = acc.2.1.compDone ∧
    (l.foldl entry_step acc).2.1.idDone = acc.2.1.idDone ∧
    (l.foldl entry_step acc).2.1.cowTag = acc.2.1.cowTag ∧
    (l.foldl entry_step acc).2.1.entry_tags = acc.2.1.entry_tags := by
  induction l with
  | nil => intro acc; exact ⟨rfl, rfl, rfl, rfl, rfl⟩
  | cons a t ih => intro acc; exact ih (entry_step acc a)

theorem entry_fold_queue (l : List Nat) :
    ∀ acc : List Nat × FlushState × List Event,
    (l.foldl entry_step acc).1 = acc.1 ++ l := by
  induction l with
  | nil => intro acc; simp
  | cons a t ih =>
    intro acc
    simp only [List.foldl_cons]
    rw [ih]
    simp [entry_step]

theorem entry_fold_sched (l : List Nat) :
    ∀ (acc : List Nat × FlushState × List Event) (j : Nat),
    (l.foldl entry_step acc).2.1.scheduled j =
      (acc.2.1.scheduled j || decide (j ∈ l)) := by
  induction l with
  | nil => intro acc j; simp
  | cons a t ih =>
    intro acc j
    simp only [List.foldl_cons]
    rw [ih]
    by_cases h : j = a
    · simp [entry_step, updF, h]
    · simp [entry_step, updF, h]

theorem entityVisitCount_append (e : Nat) (l1 l2 : List Event) :
    entityVisitCount e (l1 ++ l2) = entityVisitCount e l1 + entityVisitCount e l2 := by
  simp [entityVisitCount, List.countP_append]

theorem notifyCount_append (e : Nat) (l1 l2 : List Event) :
    notifyCount e (l1 ++ l2) = notifyCount e l1 + notifyCount e l2 := by
  simp [notifyCount, List.countP_append]

theorem recalcCount_append (e : Nat) (l1 l2 : List Event) :
    recalcCount e (l1 ++ l2) = recalcCount e l1 + recalcCount e l2 := by
  simp [recalcCount, List.countP_append]

theorem recalcDataCount_append (e : Nat) (l1 l2 : List Event) :
    recalcDataCount e (l1 ++ l2) = recalcDataCount e l1 + recalcDataCount e l2 := by
  simp [recalcDataCount, List.countP_append]

theorem posePushCount_append (p : Nat) (l1 l2 : List Event) :
    posePushCount p (l1 ++ l2) = posePushCount p l1 + posePushCount p l2 := by
  simp [posePushCount, List.countP_append]

theorem flipCount_append (i : Nat) (l1 l2 : List Event) :
    flipCount i (l1 ++ l2) = flipCount i l1 + flipCount i l2 := by
  simp [flipCount, List.countP_append]

theorem guardedPushCount_append (i : Nat) (l1 l2 : List Event) :
    guardedPushCount i (l1 ++ l2) = guardedPushCount i l1 + guardedPushCount i l2 := by
  simp [guardedPushCount, List.countP_append]

theorem pushCount_append (i : Nat) (l1 l2 : List Event) :
    pushCount i (l1 ++ l2) = pushCount i l1 + pushCount i l2 := by
  simp [pushCount, List.countP_append]

theorem entry_fold_gpc (l : List Nat) :
    ∀ (acc : List Nat × FlushState × List Event) (i : Nat),
    guardedPushCount i (l.foldl entry_step acc).2.2 =
      guardedPushCount i acc.2.2 + l.count i := by
  induction l with
  | nil => intro acc i; simp
  | cons a t ih =>
    intro acc i
    simp only [List.foldl_cons]
    rw [ih]
    have hstep : guardedPushCount i (entry_step acc a).2.2 =
        guardedPushCount i acc.2.2 + (if a = i then 1 else 0) := by
      by_cases hs : acc.2.1.scheduled a = true <;>
        by_cases h : a = i <;>
        simp [entry_step, guardedPushCount, List.countP_append,
          List.countP_cons, hs, h]
    rw [hstep, List.count_cons]
    by_cases h : a = i
    · simp [h]; omega
    · have h2 : ¬(i = a) := fun hc => h hc.symm
      simp [h, h2]

theorem entry_fold_flip_inv (l : List Nat) :
    ∀ (acc : List Nat × FlushState × List Event) (i : Nat),
    (flipCount i acc.2.2 ≤ 1 ∧
      (1 ≤ flipCount i acc.2.2 → acc.2.1.scheduled i = true)) →
    (flipCount i (l.foldl entry_step acc).2.2 ≤ 1 ∧
      (1 ≤ flipCount i (l.foldl entry_step acc).2.2 →
        (l.foldl entry_step acc).2.1.scheduled i = true)) := by
  induction l with
  | nil => intro acc i h; exact h
  | cons a t ih =>
    intro acc i h
    rcases h with ⟨hle, himp⟩
    simp only [List.foldl_cons]
    apply ih
    have hcount : flipCount i (entry_step acc a).2.2 =
        flipCount i acc.2.2 +
          (if a = i ∧ acc.2.1.scheduled a = false then 1 else 0) := by
      by_cases hai : a = i
      · subst hai
        cases hs : acc.2.1.scheduled a <;>
          simp [entry_step, flipCount, List.countP_append, List.countP_cons, hs]
      · cases hs : acc.2.1.scheduled a <;>
          simp [entry_step, flipCount, List.countP_append, List.countP_cons,
            hs, hai]
    have hsched : (entry_step acc a).2.1.scheduled i =
        (if i = a then true else acc.2.1.scheduled i) := by
      simp [entry_step, updF]
    by_cases hcond : a = i ∧ acc.2.1.scheduled a = false
    · have hz : flipCount i acc.2.2 = 0 := by
        by_contra hnz
        have h1 : 1 ≤ flipCount i acc.2.2 := Nat.pos_of_ne_zero hnz
        have h2 := himp h1
        rcases hcond with ⟨rfl, hf⟩
        rw [h2] at hf; cases hf
      constructor
      · rw [hcount, hz]
        split <;> simp
      · intro _
        rw [hsched]
        rcases hcond with ⟨rfl, _⟩
        simp
    · constructor
      · rw [hcount]; simp [hcond]; exact hle
      · intro h1
        rw [hcount] at h1
        simp [hcond] at h1
        rw [hsched]
        by_cases hia : i = a
        · simp [hia]
        · simp [hia]; exact himp h1

theorem entry_fold_other_counts (l : List Nat) :
    ∀ (acc : List Nat × FlushState × List Event) (e p : Nat),
    entityVisitCount e (l.foldl entry_step acc).2.2 = entityVisitCount e acc.2.2 ∧
    notifyCount e (l.foldl entry_step acc).2.2 = notifyCount e acc.2.2 ∧
    recalcCount e (l.foldl entry_step acc).2.2 = recalcCount e acc.2.2 ∧
    recalcDataCount e (l.foldl entry_step acc).2.2 = recalcDataCount e acc.2.2 ∧
    posePushCount p (l.foldl entry_step acc).2.2 = posePushCount p acc.2.2 := by
  induction l with
  | nil => intro acc e p; exact ⟨rfl, rfl, rfl, rfl, rfl⟩
  | cons a t ih =>
    intro acc e p
    simp only [List.foldl_cons]
    rcases ih (entry_step acc a) e p with ⟨h1, h2, h3, h4, h5⟩
    rw [h1, h2, h3, h4, h5]
    by_cases hs : acc.2.1.scheduled a = true <;>
      simp [entry_step, entityVisitCount, notifyCount, recalcCount,
        recalcDataCount, posePushCount, List.countP_append, hs]

/-! Characterization of the entity handler. -/

theorem id_handler_fields (idn : IDDepsNode) (s : FlushState) (tr : List Event) :
    (flush_handle_id_node idn s tr).1.scheduled = s.scheduled ∧
    (flush_handle_id_node idn s tr).1.opFlag = s.opFlag ∧
    (flush_handle_id_node idn s tr).1.compDone = s.compDone ∧
    (flush_handle_id_node idn s tr).1.entry_tags = s.entry_tags := by
  by_cases h : s.idDone idn.idNodeId = true <;>
    simp [flush_handle_id_node, h]

theorem id_handler_sched_counts (idn : IDDepsNode) (s : FlushState)
    (tr : List Event) (i p : Nat) :
    flipCount i (flush_handle_id_node idn s tr).2 = flipCount i tr ∧
    guardedPushCount i (flush_handle_id_node idn s tr).2 = guardedPushCount i tr ∧
    pushCount i (flush_handle_id_node idn s tr).2 = pushCount i tr ∧
    posePushCount p (flush_handle_id_node idn s tr).2 = posePushCount p tr := by
  by_cases h : s.idDone idn.idNodeId = true <;>
    by_cases hc : idn.cowExpanded = true <;>
    simp [flush_handle_id_node, h, hc, flipCount, guardedPushCount, pushCount,
      posePushCount, List.countP_append]

theorem id_handler_idDone_mono (idn : IDDepsNode) (s : FlushState)
    (tr : List Event) (e : Nat) (h : s.idDone e = true) :
    (flush_handle_id_node idn s tr).1.idDone e = true := by
  by_cases hd : s.idDone idn.idNodeId = true
  · simp [flush_handle_id_node, hd, h]
  · by_cases he : e = idn.idNodeId <;>
      simp [flush_handle_id_node, hd, updF, he, h]

theorem id_handler_idDone_ne (idn : IDDepsNode) (s : FlushState)
    (tr : List Event) (e : Nat) (hne : idn.idNodeId ≠ e) :
    (flush_handle_id_node idn s tr).1.idDone e = s.idDone e := by
  have he : ¬(e = idn.idNodeId) := fun hc => hne hc.symm
  by_cases hd : s.idDone idn.idNodeId = true <;>
    simp [flush_handle_id_node, hd, updF, he]

theorem id_handler_idDone_self (idn : IDDepsNode) (s : FlushState)
    (tr : List Event) (hd : s.idDone idn.idNodeId = false) :
    (flush_handle_id_node idn s tr).1.idDone idn.idNodeId = true := by
  simp [flush_handle_id_node, hd, updF]

theorem id_handler_counts_ne (idn : IDDepsNode) (s : FlushState)
    (tr : List Event) (e : Nat) (hne : idn.idNodeId ≠ e) :
    entityVisitCount e (flush_handle_id_node idn s tr).2 = entityVisitCount e tr ∧
    notifyCount e (flush_handle_id_node idn s tr).2 = notifyCount e tr ∧
    recalcCount e (flush_handle_id_node idn s tr).2 = recalcCount e tr ∧
    recalcDataCount e (flush_handle_id_node idn s tr).2 = recalcDataCount e tr := by
  by_cases hd : s.idDone idn.idNodeId = true <;>
    by_cases hc : idn.cowExpanded = true <;>
    refine ⟨?_, ?_, ?_, ?_⟩ <;>
    simp [flush_handle_id_node, hd, hc, entityVisitCount, notifyCount,
      recalcCount, recalcDataCount, List.countP_append, List.countP_cons, hne]

theorem id_handler_counts_self_done (idn : IDDepsNode) (s : FlushState)
    (tr : List Event) (hd : s.idDone idn.idNodeId = true) :
    notifyCount idn.idNodeId (flush_handle_id_node idn s tr).2 =
      notifyCount idn.idNodeId tr ∧
    recalcCount idn.idNodeId (flush_handle_id_node idn s tr).2 =
      recalcCount idn.idNodeId tr ∧
    recalcDataCount idn.idNodeId (flush_handle_id_node idn s tr).2 =
      recalcDataCount idn.idNodeId tr := by
  refine ⟨?_, ?_, ?_⟩ <;>
    simp [flush_handle_id_node, hd, notifyCount, recalcCount, recalcDataCount,
      List.countP_append, List.countP_cons]

theorem id_handler_counts_self_fire (idn : IDDepsNode) (s : FlushState)
    (tr : List Event) (hd : s.idDone idn.idNodeId = false) :
    notifyCount idn.idNodeId (flush_handle_id_node idn s tr).2 =
      notifyCount idn.idNodeId tr + (if idn.cowExpanded then 1 else 0) ∧
    recalcCount idn.idNodeId (flush_handle_id_node idn s tr).2 =
      recalcCount idn.idNodeId tr + 1 ∧
    recalcDataCount idn.idNodeId (flush_handle_id_node idn s tr).2 =
      recalcDataCount idn.idNodeId tr + 1 := by
  by_cases hc : idn.cowExpanded = true <;>
    refine ⟨?_, ?_, ?_⟩ <;>
    simp [flush_handle_id_node, hd, hc, notifyCount, recalcCount,
      recalcDataCount, List.countP_append, List.countP_cons]

/-- Per-entity effect invariant carried through the propagation loop: an
entity with its `done` flag still clear has produced no events; one with
`done` set has produced exactly one pair of recalc calls and a
notification exactly when its CoW copy is expanded; entities absent from
the graph never produce events. -/
def entityInv (g : Depsgraph) (s : FlushState) (tr : List Event) : Prop :=
  ∀ e : Nat,
    ((findIdNode g e).isSome = false →
      entityVisitCount e tr = 0 ∧ notifyCount e tr = 0 ∧
      recalcCount e tr = 0 ∧ recalcDataCount e tr = 0) ∧
    (∀ idn : IDDepsNode, findIdNode g e = some idn →
      (s.idDone e = false ∧ entityVisitCount e tr = 0 ∧ notifyCount e tr = 0 ∧
        recalcCount e tr = 0 ∧ recalcDataCount e tr = 0) ∨
      (s.idDone e = true ∧ recalcCount e tr = 1 ∧ recalcDataCount e tr = 1 ∧
        notifyCount e tr = (if idn.cowExpanded then 1 else 0)))

theorem id_handler_entityInv {g : Depsgraph} {idn0 : IDDepsNode}
    (hid : findIdNode g idn0.idNodeId = some idn0) (s : FlushState)
    (tr : List Event) (h : entityInv g s tr) :
    entityInv g (flush_handle_id_node idn0 s tr).1
      (flush_handle_id_node idn0 s tr).2 := by
  intro e
  rcases h e with ⟨h1, h2⟩
  by_cases he : e = idn0.idNodeId
  · constructor
    · intro hno
      rw [he, hid] at hno; simp at hno
    · intro idn hidn
      have hidn0 : idn = idn0 := by
        rw [he, hid] at hidn; exact (Option.some.inj hidn).symm
      by_cases hd : s.idDone idn0.idNodeId = true
      · rcases h2 idn hidn with ⟨hf, _⟩ | ⟨_, hr, hrd, hn⟩
        · rw [he] at hf; rw [hd] at hf; cases hf
        · rcases id_handler_counts_self_done idn0 s tr hd with ⟨c1, c2, c3⟩
          right
          rw [he]
          refine ⟨id_handler_idDone_mono idn0 s tr _ (he ▸ hd), ?_, ?_, ?_⟩
          · rw [c2, ← he]; exact hr
          · rw [c3, ← he]; exact hrd
          · rw [c1, ← he, hn, hidn0]
      · have hd2 : s.idDone idn0.idNodeId = false := by
          cases hv : s.idDone idn0.idNodeId
          · rfl
          · exact absurd hv hd
        rcases h2 idn hidn with ⟨_, _, hn0, hr0, hrd0⟩ | ⟨ht, _⟩
        · rcases id_handler_counts_self_fire idn0 s tr hd2 with ⟨c1, c2, c3⟩
          right
          rw [he]
          refine ⟨id_handler_idDone_self idn0 s tr hd2, ?_, ?_, ?_⟩
          · rw [c2, ← he, hr0]
          · rw [c3, ← he, hrd0]
          · rw [c1, ← he, hn0, hidn0]; simp
        · rw [he, hd2] at ht; cases ht
  · have hne : idn0.idNodeId ≠ e := fun hc => he hc.symm
    rcases id_handler_counts_ne idn0 s tr e hne with ⟨c1, c2, c3, c4⟩
    constructor
    · intro hno
      rcases h1 hno with ⟨k1, k2, k3, k4⟩
      rw [c1, c2, c3, c4]
      exact ⟨k1, k2, k3, k4⟩
    · intro idn hidn
      rw [id_handler_idDone_ne idn0 s tr e hne, c1, c2, c3, c4]
      exact h2 idn hidn

/-! Characterization of the blanket re-tag fold. -/

theorem tag_step_fields (g : Depsgraph) (s : FlushState) (a : Nat) :
    (tag_step g s a).scheduled = s.scheduled ∧
    (tag_step g s a).compDone = s.compDone ∧
    (tag_step g s a).idDone = s.idDone ∧
    (tag_step g s a).cowTag = s.cowTag ∧
    (tag_step g s a).entry_tags = s.entry_tags := by
  unfold tag_step
  cases findOp g a with
  | none => exact ⟨rfl, rfl, rfl, rfl, rfl⟩
  | some op =>
    by_cases h : op.opcode = DEG_OPCODE_PARTICLE_SETTINGS_EVAL <;>
      simp [h]

theorem tag_fold_fields (g : Depsgraph) (l : List Nat) : ∀ s : FlushState,
    (l.foldl (tag_step g) s).scheduled = s.scheduled ∧
    (l.foldl (tag_step g) s).compDone = s.compDone ∧
    (l.foldl (tag_step g) s).idDone = s.idDone ∧
    (l.foldl (tag_step g) s).cowTag = s.cowTag ∧
    (l.foldl (tag_step g) s).entry_tags = s.entry_tags := by
  induction l with
  | nil => intro s; exact ⟨rfl, rfl, rfl, rfl, rfl⟩
  | cons a t ih =>
    intro s
    rcases ih (tag_step g s a) with ⟨h1, h2, h3, h4, h5⟩
    rcases tag_step_fields g s a with ⟨k1, k2, k3, k4, k5⟩
    exact ⟨h1.trans k1, h2.trans k2, h3.trans k3, h4.trans k4, h5.trans k5⟩

theorem tag_step_opFlag_other (g : Depsgraph) (s : FlushState) (a j : Nat)
    (h : a ≠ j) : (tag_step g s a).opFlag j = s.opFlag j := by
  unfold tag_step
  cases findOp g a with
  | none => rfl
  | some op =>
    have hja : ¬(j = a) := fun hc => h hc.symm
    by_cases hp : op.opcode = DEG_OPCODE_PARTICLE_SETTINGS_EVAL <;>
      simp [hp, updF, hja]

theorem tag_fold_particle (g : Depsgraph) (l : List Nat) {j : Nat}
    {op : OperationDepsNode} (hf : findOp g j = some op)
    (hp : op.opcode = DEG_OPCODE_PARTICLE_SETTINGS_EVAL) :
    ∀ s : FlushState, (l.foldl (tag_step g) s).opFlag j = s.opFlag j := by
  induction l with
  | nil => intro s; rfl
  | cons a t ih =>
    intro s
    simp only [List.foldl_cons]
    rw [ih]
    by_cases ha : a = j
    · subst ha
      simp [tag_step, hf, hp]
    · exact tag_step_opFlag_other g s a j ha

theorem nu_bit_set (x : Nat) :
    ((x ||| DEPSOP_FLAG_NEEDS_UPDATE).testBit 0) = true := by
  rw [Nat.testBit_or]
  simp [DEPSOP_FLAG_NEEDS_UPDATE]

theorem tag_step_nu_mono (g : Depsgraph) (s : FlushState) (a j : Nat)
    (h : (s.opFlag j).testBit 0 = true) :
    ((tag_step g s a).opFlag j).testBit 0 = true := by
  unfold tag_step
  cases findOp g a with
  | none => exact h
  | some op =>
    by_cases hp : op.opcode = DEG_OPCODE_PARTICLE_SETTINGS_EVAL
    · simp only [hp, if_true]; exact h
    · simp only [hp, if_false, updF]
      by_cases hj : j = a
      · subst hj
        simp only [if_pos rfl]
        exact nu_bit_set _
      · simp only [if_neg hj]; exact h

theorem tag_fold_nu_mono (g : Depsgraph) (l : List Nat) (j : Nat) :
    ∀ s : FlushState, (s.opFlag j).testBit 0 = true →
    ((l.foldl (tag_step g) s).opFlag j).testBit 0 = true := by
  induction l with
  | nil => intro s h; exact h
  | cons a t ih =>
    intro s h
    exact ih (tag_step g s a) (tag_step_nu_mono g s a j h)

theorem tag_fold_sets (g : Depsgraph) (l : List Nat) {j : Nat}
    {op : OperationDepsNode} (hf : findOp g j = some op)
    (hp : op.opcode ≠ DEG_OPCODE_PARTICLE_SETTINGS_EVAL) :
    ∀ s : FlushState, j ∈ l →
    ((l.foldl (tag_step g) s).opFlag j).testBit 0 = true := by
  induction l with
  | nil => intro s h; cases h
  | cons a t ih =>
    intro s hmem
    rcases List.mem_cons.mp hmem with rfl | ht
    · simp only [List.foldl_cons]
      apply tag_fold_nu_mono
      simp only [tag_step, hf, if_neg hp, updF, if_pos rfl]
      exact nu_bit_set _
    · exact ih (tag_step g s a) ht

/-! Characterization of the component handler. -/

theorem cow_retag_counts (g : Depsgraph) (idn : IDDepsNode)
    (comp : ComponentDepsNode) (u : Bool) (tr : List Event) (i e p : Nat) :
    flipCount i (cow_retag_events g idn comp u tr) = flipCount i tr ∧
    guardedPushCount i (cow_retag_events g idn comp u tr) = guardedPushCount i tr ∧
    posePushCount p (cow_retag_events g idn comp u tr) = posePushCount p tr ∧
    entityVisitCount e (cow_retag_events g idn comp u tr) = entityVisitCount e tr ∧
    notifyCount e (cow_retag_events g idn comp u tr) = notifyCount e tr ∧
    recalcCount e (cow_retag_events g idn comp u tr) = recalcCount e tr ∧
    recalcDataCount e (cow_retag_events g idn comp u tr) = recalcDataCount e tr := by
  unfold cow_retag_events
  by_cases hc : (u && comp.depends_on_cow) = true
  · simp only [hc, if_true]
    cases find_component g idn DEG_NODE_TYPE_COPY_ON_WRITE with
    | none => exact ⟨rfl, rfl, rfl, rfl, rfl, rfl, rfl⟩
    | some cow =>
      refine ⟨?_, ?_, ?_, ?_, ?_, ?_, ?_⟩ <;>
        simp [flipCount, guardedPushCount, posePushCount, entityVisitCount,
          notifyCount, recalcCount, recalcDataCount, List.countP_append,
          List.countP_cons]
  · simp [hc]

theorem bone_rule_fields (g : Depsgraph) (idn : IDDepsNode)
    (comp : ComponentDepsNode) (queue : List Nat) (s : FlushState)
    (tr : List Event) :
    (bone_rule g idn comp queue s tr).2.1.scheduled = s.scheduled ∧
    (bone_rule g idn comp queue s tr).2.1.opFlag = s.opFlag ∧
    (bone_rule g idn comp queue s tr).2.1.idDone = s.idDone ∧
    (bone_rule g idn comp queue s tr).2.1.cowTag = s.cowTag ∧
    (bone_rule g idn comp queue s tr).2.1.entry_tags = s.entry_tags := by
  unfold bone_rule
  by_cases hb : comp.ctype = DEG_NODE_TYPE_BONE
  · simp only [if_pos hb]
    cases find_component g idn DEG_NODE_TYPE_EVAL_POSE with
    | none => exact ⟨rfl, rfl, rfl, rfl, rfl⟩
    | some pose =>
      by_cases hp : s.compDone pose.compId = COMPONENT_STATE_NONE <;>
        simp [hp]
  · simp [hb]

theorem bone_rule_split (g : Depsgraph) (idn : IDDepsNode)
    (comp : ComponentDepsNode) (queue : List Nat) (s : FlushState)
    (tr : List Event) :
    bone_rule g idn comp queue s tr = (queue, s, tr) ∨
    ∃ pose : ComponentDepsNode,
      find_component g idn DEG_NODE_TYPE_EVAL_POSE = some pose ∧
      comp.ctype = DEG_NODE_TYPE_BONE ∧
      s.compDone pose.compId = COMPONENT_STATE_NONE ∧
      bone_rule g idn comp queue s tr =
        (pose.entryOperation :: queue,
         { s with compDone := updF s.compDone pose.compId COMPONENT_STATE_SCHEDULED },
         tr ++ [Event.poseEntryPush pose.compId pose.entryOperation]) := by
  by_cases hb : comp.ctype = DEG_NODE_TYPE_BONE
  · rcases hfc : find_component g idn DEG_NODE_TYPE_EVAL_POSE with _ | pose
    · left; simp [bone_rule, hb, hfc]
    · by_cases hp : s.compDone pose.compId = COMPONENT_STATE_NONE
      · right; exact ⟨pose, rfl, hb, hp, by simp [bone_rule, hb, hfc, hp]⟩
      · left; simp [bone_rule, hb, hfc, hp]
  · left; simp [bone_rule, hb]

theorem bone_rule_done_progress (g : Depsgraph) (idn : IDDepsNode)
    (comp : ComponentDepsNode) (queue : List Nat) (s : FlushState)
    (tr : List Event) (c : Nat) :
    (bone_rule g idn comp queue s tr).2.1.compDone c = s.compDone c ∨
    (s.compDone c = COMPONENT_STATE_NONE ∧
      (bone_rule g idn comp queue s tr).2.1.compDone c = COMPONENT_STATE_SCHEDULED) := by
  rcases bone_rule_split g idn comp queue s tr with heq | ⟨pose, _, _, hp, heq⟩
  · rw [heq]; left; rfl
  · rw [heq]
    by_cases hc : c = pose.compId
    · right
      constructor
      · rw [hc]; exact hp
      · simp [updF, hc]
    · left; simp [updF, hc]

theorem bone_rule_queue (g : Depsgraph) (idn : IDDepsNode)
    (comp : ComponentDepsNode) (queue : List Nat) (s : FlushState)
    (tr : List Event) :
    ∃ pre : List Nat, (bone_rule g idn comp queue s tr).1 = pre ++ queue := by
  rcases bone_rule_split g idn comp queue s tr with heq | ⟨pose, _, _, _, heq⟩
  · exact ⟨[], by simp [heq]⟩
  · exact ⟨[pose.entryOperation], by simp [heq]⟩

theorem bone_rule_measure (g : Depsgraph) (idn : IDDepsNode)
    (comp : ComponentDepsNode) (queue : List Nat) (s : FlushState)
    (tr : List Event) :
    2 * compMeasure g (bone_rule g idn comp queue s tr).2.1 +
      2 * (bone_rule g idn comp queue s tr).1.length ≤
    2 * compMeasure g s + 2 * queue.length := by
  rcases bone_rule_split g idn comp queue s tr with heq | ⟨pose, hfc, _, hp, heq⟩
  · rw [heq]
  · rw [heq]
    have hmem : pose.compId ∈ (g.components.map (fun c => c.compId)).dedup := by
      rw [List.mem_dedup]
      exact List.mem_map.mpr ⟨pose, find_component_mem hfc, rfl⟩
    have hlt : compMeasure g
        { s with compDone := updF s.compDone pose.compId COMPONENT_STATE_SCHEDULED } <
        compMeasure g s := by
      apply countP_lt_flip _ _ _ pose.compId hmem
      · intro a _ hqa
        by_cases ha : a = pose.compId
        · exfalso
          rw [ha] at hqa
          simp [updF, COMPONENT_STATE_SCHEDULED, COMPONENT_STATE_NONE] at hqa
        · simpa [updF, ha] using hqa
      · simp [hp]
      · simp [updF, COMPONENT_STATE_SCHEDULED, COMPONENT_STATE_NONE]
    simp only [List.length_cons]
    omega

theorem bone_rule_poseInv (g : Depsgraph) (idn : IDDepsNode)
    (comp : ComponentDepsNode) (queue : List Nat) (s : FlushState)
    (tr : List Event) (p : Nat)
    (h : posePushCount p tr ≤ 1 ∧
      (1 ≤ posePushCount p tr → s.compDone p ≠ COMPONENT_STATE_NONE)) :
    posePushCount p (bone_rule g idn comp queue s tr).2.2 ≤ 1 ∧
    (1 ≤ posePushCount p (bone_rule g idn comp queue s tr).2.2 →
      (bone_rule g idn comp queue s tr).2.1.compDone p ≠ COMPONENT_STATE_NONE) := by
  rcases bone_rule_split g idn comp queue s tr with heq | ⟨pose, _, _, hp, heq⟩
  · rw [heq]; exact h
  · rw [heq]
    have hcount : posePushCount p
        (tr ++ [Event.poseEntryPush pose.compId pose.entryOperation]) =
        posePushCount p tr + (if pose.compId = p then 1 else 0) := by
      by_cases hpp : pose.compId = p <;>
        simp [posePushCount, List.countP_append, List.countP_cons, hpp]
    by_cases hpp : pose.compId = p
    · have hz : posePushCount p tr = 0 := by
        by_contra hnz
        have h1 : 1 ≤ posePushCount p tr := Nat.pos_of_ne_zero hnz
        exact (h.2 h1) (hpp ▸ hp)
      have hval : posePushCount p
          (tr ++ [Event.poseEntryPush pose.compId pose.entryOperation]) = 1 := by
        rw [hcount, hz]
        simp [hpp]
      constructor
      · exact le_of_eq hval
      · intro _
        show ¬(updF s.compDone pose.compId COMPONENT_STATE_SCHEDULED p =
          COMPONENT_STATE_NONE)
        rw [← hpp]
        simp [updF, COMPONENT_STATE_SCHEDULED, COMPONENT_STATE_NONE]
    · have hppc : ¬(p = pose.compId) := fun hc => hpp hc.symm
      have hval : posePushCount p
          (tr ++ [Event.poseEntryPush pose.compId pose.entryOperation]) =
          posePushCount p tr := by
        rw [hcount]
        simp [hpp]
      constructor
      · exact le_of_eq_of_le hval h.1
      · intro h1
        have h1c : 1 ≤ posePushCount p
            (tr ++ [Event.poseEntryPush pose.compId pose.entryOperation]) := h1
        rw [hval] at h1c
        show ¬(updF s.compDone pose.compId COMPONENT_STATE_SCHEDULED p =
          COMPONENT_STATE_NONE)
        simpa [updF, hppc] using h.2 h1c

theorem bone_rule_entity_counts (g : Depsgraph) (idn : IDDepsNode)
    (comp : ComponentDepsNode) (queue : List Nat) (s : FlushState)
    (tr : List Event) (e : Nat) :
    entityVisitCount e (bone_rule g idn comp queue s tr).2.2 = entityVisitCount e tr ∧
    notifyCount e (bone_rule g idn comp queue s tr).2.2 = notifyCount e tr ∧
    recalcCount e (bone_rule g idn comp queue s tr).2.2 = recalcCount e tr ∧
    recalcDataCount e (bone_rule g idn comp queue s tr).2.2 = recalcDataCount e tr := by
  rcases bone_rule_split g idn comp queue s tr with heq | ⟨pose, _, _, _, heq⟩
  · rw [heq]; exact ⟨rfl, rfl, rfl, rfl⟩
  · rw [heq]
    refine ⟨?_, ?_, ?_, ?_⟩ <;>
      simp [entityVisitCount, notifyCount, recalcCount, recalcDataCount,
        List.countP_append, List.countP_cons]

theorem bone_rule_flip_gpc (g : Depsgraph) (idn : IDDepsNode)
    (comp : ComponentDepsNode) (queue : List Nat) (s : FlushState)
    (tr : List Event) (i : Nat) :
    flipCount i (bone_rule g idn comp queue s tr).2.2 = flipCount i tr ∧
    guardedPushCount i (bone_rule g idn comp queue s tr).2.2 =
      guardedPushCount i tr := by
  rcases bone_rule_split g idn comp queue s tr with heq | ⟨pose, _, _, _, heq⟩
  · rw [heq]; exact ⟨rfl, rfl⟩
  · rw [heq]
    refine ⟨?_, ?_⟩ <;>
      simp [flipCount, guardedPushCount, List.countP_append, List.countP_cons]

theorem comp_handler_fields (g : Depsgraph) (idn : IDDepsNode)
    (comp : ComponentDepsNode) (u : Bool) (q : List Nat) (s : FlushState)
    (tr : List Event) :
    (flush_handle_component_node g idn comp u q s tr).2.1.scheduled = s.scheduled ∧
    (flush_handle_component_node g idn comp u q s tr).2.1.idDone = s.idDone ∧
    (flush_handle_component_node g idn comp u q s tr).2.1.cowTag = s.cowTag ∧
    (flush_handle_component_node g idn comp u q s tr).2.1.entry_tags = s.entry_tags := by
  unfold flush_handle_component_node
  by_cases hd : s.compDone comp.compId = COMPONENT_STATE_DONE
  · simp [hd]
  · simp only [if_neg hd]
    rcases bone_rule_fields g idn comp q
      (comp.operations.foldl (tag_step g)
        { s with compDone := updF s.compDone comp.compId COMPONENT_STATE_DONE })
      (cow_retag_events g idn comp u tr) with ⟨b1, b2, b3, b4, b5⟩
    rcases tag_fold_fields g comp.operations
      { s with compDone := updF s.compDone comp.compId COMPONENT_STATE_DONE }
      with ⟨t1, _, t3, t4, t5⟩
    exact ⟨b1.trans t1, b3.trans t3, b4.trans t4, b5.trans t5⟩

theorem comp_handler_done_progress (g : Depsgraph) (idn : IDDepsNode)
    (comp : ComponentDepsNode) (u : Bool) (q : List Nat) (s : FlushState)
    (tr : List Event) (c : Nat) :
    (flush_handle_component_node g idn comp u q s tr).2.1.compDone c = s.compDone c ∨
    (flush_handle_component_node g idn comp u q s tr).2.1.compDone c =
      COMPONENT_STATE_DONE ∨
    (s.compDone c = COMPONENT_STATE_NONE ∧
      (flush_handle_component_node g idn comp u q s tr).2.1.compDone c =
        COMPONENT_STATE_SCHEDULED) := by
  unfold flush_handle_component_node
  by_cases hd : s.compDone comp.compId = COMPONENT_STATE_DONE
  · simp [hd]
  · simp only [if_neg hd]
    have htf := (tag_fold_fields g comp.operations
      { s with compDone := updF s.compDone comp.compId COMPONENT_STATE_DONE }).2.1
    rcases bone_rule_done_progress g idn comp q
      (comp.operations.foldl (tag_step g)
        { s with compDone := updF s.compDone comp.compId COMPONENT_STATE_DONE })
      (cow_retag_events g idn comp u tr) c with hbr | ⟨hn, hbr⟩
    · rw [hbr, htf]
      by_cases hc : c = comp.compId
      · right; left; simp [updF, hc]
      · left; simp [updF, hc]
    · rw [htf] at hn
      by_cases hc : c = comp.compId
      · exfalso
        rw [hc] at hn
        simp [updF, COMPONENT_STATE_NONE, COMPONENT_STATE_DONE] at hn
      · right; right
        constructor
        · rw [← hn]; simp [updF, hc]
        · exact hbr

theorem comp_handler_nu_mono (g : Depsgraph) (idn : IDDepsNode)
    (comp : ComponentDepsNode) (u : Bool) (q : List Nat) (s : FlushState)
    (tr : List Event) (j : Nat) (h : (s.opFlag j).testBit 0 = true) :
    ((flush_handle_component_node g idn comp u q s tr).2.1.opFlag j).testBit 0 =
      true := by
  unfold flush_handle_component_node
  by_cases hd : s.compDone comp.compId = COMPONENT_STATE_DONE
  · rw [if_pos hd]; exact h
  · simp only [if_neg hd]
    have hbf := (bone_rule_fields g idn comp q
      (comp.operations.foldl (tag_step g)
        { s with compDone := updF s.compDone comp.compId COMPONENT_STATE_DONE })
      (cow_retag_events g idn comp u tr)).2.1
    rw [hbf]
    exact tag_fold_nu_mono g comp.operations j _ h

theorem comp_handler_opFlag_particle (g : Depsgraph) (idn : IDDepsNode)
    (comp : ComponentDepsNode) (u : Bool) (q : List Nat) (s : FlushState)
    (tr : List Event) {j : Nat} {op : OperationDepsNode}
    (hf : findOp g j = some op)
    (hp : op.opcode = DEG_OPCODE_PARTICLE_SETTINGS_EVAL) :
    (flush_handle_component_node g idn comp u q s tr).2.1.opFlag j =
      s.opFlag j := by
  unfold flush_handle_component_node
  by_cases hd : s.compDone comp.compId = COMPONENT_STATE_DONE
  · simp [hd]
  · simp only [if_neg hd]
    have hbf := (bone_rule_fields g idn comp q
      (comp.operations.foldl (tag_step g)
        { s with compDone := updF s.compDone comp.compId COMPONENT_STATE_DONE })
      (cow_retag_events g idn comp u tr)).2.1
    rw [hbf]
    exact tag_fold_particle g comp.operations hf hp _

theorem comp_handler_blanket (g : Depsgraph) (idn : IDDepsNode)
    (comp : ComponentDepsNode) (u : Bool) (q : List Nat) (s : FlushState)
    (tr : List Event) {j : Nat} {op : OperationDepsNode}
    (hf : findOp g j = some op)
    (hp : op.opcode ≠ DEG_OPCODE_PARTICLE_SETTINGS_EVAL)
    (hmem : j ∈ comp.operations)
    (hd : s.compDone comp.compId ≠ COMPONENT_STATE_DONE) :
    ((flush_handle_component_node g idn comp u q s tr).2.1.opFlag j).testBit 0 =
      true := by
  unfold flush_handle_component_node
  simp only [if_neg hd]
  have hbf := (bone_rule_fields g idn comp q
    (comp.operations.foldl (tag_step g)
      { s with compDone := updF s.compDone comp.compId COMPONENT_STATE_DONE })
    (cow_retag_events g idn comp u tr)).2.1
  rw [hbf]
  exact tag_fold_sets g comp.operations hf hp _ hmem

theorem comp_handler_queue (g : Depsgraph) (idn : IDDepsNode)
    (comp : ComponentDepsNode) (u : Bool) (q : List Nat) (s : FlushState)
    (tr : List Event) :
    ∃ pre : List Nat,
      (flush_handle_component_node g idn comp u q s tr).1 = pre ++ q := by
  unfold flush_handle_component_node
  by_cases hd : s.compDone comp.compId = COMPONENT_STATE_DONE
  · exact ⟨[], by simp [hd]⟩
  · simp only [if_neg hd]
    exact bone_rule_queue g idn comp q _ _

theorem comp_handler_measure (g : Depsgraph) (idn : IDDepsNode)
    (comp : ComponentDepsNode) (u : Bool) (q : List Nat) (s : FlushState)
    (tr : List Event) :
    2 * compMeasure g (flush_handle_component_node g idn comp u q s tr).2.1 +
      2 * (flush_handle_component_node g idn comp u q s tr).1.length ≤
    2 * compMeasure g s + 2 * q.length := by
  unfold flush_handle_component_node
  by_cases hd : s.compDone comp.compId = COMPONENT_STATE_DONE
  · simp [hd]
  · simp only [if_neg hd]
    have hb := bone_rule_measure g idn comp q
      (comp.operations.foldl (tag_step g)
        { s with compDone := updF s.compDone comp.compId COMPONENT_STATE_DONE })
      (cow_retag_events g idn comp u tr)
    have htf := (tag_fold_fields g comp.operations
      { s with compDone := updF s.compDone comp.compId COMPONENT_STATE_DONE }).2.1
    have heq : compMeasure g
        (comp.operations.foldl (tag_step g)
          { s with compDone := updF s.compDone comp.compId COMPONENT_STATE_DONE }) =
        compMeasure g
          { s with compDone := updF s.compDone comp.compId COMPONENT_STATE_DONE } := by
      unfold compMeasure
      rw [htf]
    have hle : compMeasure g
        { s with compDone := updF s.compDone comp.compId COMPONENT_STATE_DONE } ≤
        compMeasure g s := by
      apply countP_le_of_imp
      intro a _ hqa
      by_cases ha : a = comp.compId
      · exfalso
        rw [ha] at hqa
        simp [updF, COMPONENT_STATE_DONE, COMPONENT_STATE_NONE] at hqa
      · simpa [updF, ha] using hqa
    rw [heq] at hb
    omega

theorem comp_handler_poseInv (g : Depsgraph) (idn : IDDepsNode)
    (comp : ComponentDepsNode) (u : Bool) (q : List Nat) (s : FlushState)
    (tr : List Event) (p : Nat)
    (h : posePushCount p tr ≤ 1 ∧
      (1 ≤ posePushCount p tr → s.compDone p ≠ COMPONENT_STATE_NONE)) :
    posePushCount p (flush_handle_component_node g idn comp u q s tr).2.2 ≤ 1 ∧
    (1 ≤ posePushCount p (flush_handle_component_node g idn comp u q s tr).2.2 →
      (flush_handle_component_node g idn comp u q s tr).2.1.compDone p ≠
        COMPONENT_STATE_NONE) := by
  unfold flush_handle_component_node
  by_cases hd : s.compDone comp.compId = COMPONENT_STATE_DONE
  · simp only [if_pos hd]; exact h
  · simp only [if_neg hd]
    apply bone_rule_poseInv
    have hcw := (cow_retag_counts g idn comp u tr 0 0 p).2.2.1
    rw [hcw]
    have htf := (tag_fold_fields g comp.operations
      { s with compDone := updF s.compDone comp.compId COMPONENT_STATE_DONE }).2.1
    constructor
    · exact h.1
    · intro h1
      rw [htf]
      by_cases hc : p = comp.compId
      · simp [updF, hc, COMPONENT_STATE_DONE, COMPONENT_STATE_NONE]
      · simpa [updF, hc] using h.2 h1

theorem comp_handler_entity_counts (g : Depsgraph) (idn : IDDepsNode)
    (comp : ComponentDepsNode) (u : Bool) (q : List Nat) (s : FlushState)
    (tr : List Event) (e : Nat) :
    entityVisitCount e (flush_handle_component_node g idn comp u q s tr).2.2 =
      entityVisitCount e tr ∧
    notifyCount e (flush_handle_component_node g idn comp u q s tr).2.2 =
      notifyCount e tr ∧
    recalcCount e (flush_handle_component_node g idn comp u q s tr).2.2 =
      recalcCount e tr ∧
    recalcDataCount e (flush_handle_component_node g idn comp u q s tr).2.2 =
      recalcDataCount e tr := by
  unfold flush_handle_component_node
  by_cases hd : s.compDone comp.compId = COMPONENT_STATE_DONE
  · simp [hd]
  · simp only [if_neg hd]
    rcases bone_rule_entity_counts g idn comp q
      (comp.operations.foldl (tag_step g)
        { s with compDone := updF s.compDone comp.compId COMPONENT_STATE_DONE })
      (cow_retag_events g idn comp u tr) e with ⟨b1, b2, b3, b4⟩
    rcases cow_retag_counts g idn comp u tr 0 e 0 with ⟨_, _, _, c4, c5, c6, c7⟩
    exact ⟨b1.trans c4, b2.trans c5, b3.trans c6, b4.trans c7⟩

/-! Characterization of the child scheduler. -/

theorem child_step_split (acc : Option Nat × List Nat × FlushState × List Event)
    (a : Nat) :
    (acc.2.2.1.scheduled a = true ∧ child_step acc a = acc) ∨
    (acc.2.2.1.scheduled a = false ∧ ∃ r, acc.1 = some r ∧
      child_step acc a =
        (some r, a :: acc.2.1,
         { acc.2.2.1 with scheduled := updF acc.2.2.1.scheduled a true },
         acc.2.2.2 ++ [Event.pushFront a, Event.schedFlip a])) ∨
    (acc.2.2.1.scheduled a = false ∧ acc.1 = none ∧
      child_step acc a =
        (some a, acc.2.1,
         { acc.2.2.1 with scheduled := updF acc.2.2.1.scheduled a true },
         acc.2.2.2 ++ [Event.schedFlip a])) := by
  cases hs : acc.2.2.1.scheduled a
  · cases hr : acc.1 with
    | none =>
      right; right
      exact ⟨rfl, rfl, by simp [child_step, hs, hr]⟩
    | some r =>
      right; left
      exact ⟨rfl, r, rfl, by simp [child_step, hs, hr]⟩
  · left
    exact ⟨rfl, by simp [child_step, hs]⟩

theorem child_fold_fields (l : List Nat) :
    ∀ acc : Option Nat × List Nat × FlushState × List Event,
    (l.foldl child_step acc).2.2.1.opFlag = acc.2.2.1.opFlag ∧
    (l.foldl child_step acc).2.2.1.compDone = acc.2.2.1.compDone ∧
    (l.foldl child_step acc).2.2.1.idDone = acc.2.2.1.idDone ∧
    (l.foldl child_step acc).2.2.1.cowTag = acc.2.2.1.cowTag ∧
    (l.foldl child_step acc).2.2.1.entry_tags = acc.2.2.1.entry_tags := by
  induction l with
  | nil => intro acc; exact ⟨rfl, rfl, rfl, rfl, rfl⟩
  | cons a t ih =>
    intro acc
    simp only [List.foldl_cons]
    rcases ih (child_step acc a) with ⟨h1, h2, h3, h4, h5⟩
    have hstep : (child_step acc a).2.2.1.opFlag = acc.2.2.1.opFlag ∧
        (child_step acc a).2.2.1.compDone = acc.2.2.1.compDone ∧
        (child_step acc a).2.2.1.idDone = acc.2.2.1.idDone ∧
        (child_step acc a).2.2.1.cowTag = acc.2.2.1.cowTag ∧
        (child_step acc a).2.2.1.entry_tags = acc.2.2.1.entry_tags := by
      rcases child_step_split acc a with ⟨_, heq⟩ | ⟨_, r, _, heq⟩ | ⟨_, _, heq⟩ <;>
        rw [heq] <;> exact ⟨rfl, rfl, rfl, rfl, rfl⟩
    rcases hstep with ⟨k1, k2, k3, k4, k5⟩
    exact ⟨h1.trans k1, h2.trans k2, h3.trans k3, h4.trans k4, h5.trans k5⟩

theorem child_step_sched_mono (acc : Option Nat × List Nat × FlushState × List Event)
    (a i : Nat) (h : acc.2.2.1.scheduled i = true) :
    (child_step acc a).2.2.1.scheduled i = true := by
  rcases child_step_split acc a with ⟨_, heq⟩ | ⟨_, r, _, heq⟩ | ⟨_, _, heq⟩ <;>
    rw [heq]
  · exact h
  · by_cases hia : i = a <;> simp [updF, hia, h]
  · by_cases hia : i = a <;> simp [updF, hia, h]

theorem child_fold_sched_mono (l : List Nat) :
    ∀ (acc : Option Nat × List Nat × FlushState × List Event) (i : Nat),
    acc.2.2.1.scheduled i = true →
    (l.foldl child_step acc).2.2.1.scheduled i = true := by
  induction l with
  | nil => intro acc i h; exact h
  | cons a t ih =>
    intro acc i h
    exact ih (child_step acc a) i (child_step_sched_mono acc a i h)

theorem child_fold_result_stable (l : List Nat) :
    ∀ (acc : Option Nat × List Nat × FlushState × List Event) (r : Nat),
    acc.1 = some r → (l.foldl child_step acc).1 = some r := by
  induction l with
  | nil => intro acc r h; exact h
  | cons a t ih =>
    intro acc r h
    apply ih (child_step acc a) r
    rcases child_step_split acc a with ⟨_, heq⟩ | ⟨_, r2, hr2, heq⟩ | ⟨_, hn, heq⟩
    · rw [heq]; exact h
    · rw [heq]
      rw [h] at hr2
      exact hr2.symm
    · rw [hn] at h; cases h

theorem child_fold_queue_shape (l : List Nat) :
    ∀ acc : Option Nat × List Nat × FlushState × List Event,
    ∃ pre : List Nat, (l.foldl child_step acc).2.1 = pre ++ acc.2.1 := by
  induction l with
  | nil => intro acc; exact ⟨[], rfl⟩
  | cons a t ih =>
    intro acc
    simp only [List.foldl_cons]
    rcases ih (child_step acc a) with ⟨pre, hpre⟩
    rcases child_step_split acc a with ⟨_, heq⟩ | ⟨_, r, _, heq⟩ | ⟨_, _, heq⟩
    · refine ⟨pre, ?_⟩
      rw [hpre, heq]
    · refine ⟨pre ++ [a], ?_⟩
      rw [hpre, heq]
      simp
    · refine ⟨pre, ?_⟩
      rw [hpre, heq]

theorem child_fold_all_scheduled (l : List Nat) :
    ∀ (acc : Option Nat × List Nat × FlushState × List Event) (t2 : Nat),
    t2 ∈ l → (l.foldl child_step acc).2.2.1.scheduled t2 = true := by
  induction l with
  | nil => intro acc t2 h; cases h
  | cons a t ih =>
    intro acc t2 hmem
    rcases List.mem_cons.mp hmem with rfl | ht
    · simp only [List.foldl_cons]
      apply child_fold_sched_mono
      rcases child_step_split acc t2 with ⟨hs, heq⟩ | ⟨_, r, _, heq⟩ | ⟨_, _, heq⟩ <;>
        rw [heq]
      · exact hs
      · simp [updF]
      · simp [updF]
    · exact ih (child_step acc a) t2 ht

theorem child_fold_new_sched (l : List Nat) :
    ∀ (acc : Option Nat × List Nat × FlushState × List Event) (i : Nat),
    (l.foldl child_step acc).2.2.1.scheduled i = true →
    acc.2.2.1.scheduled i = true ∨ i ∈ (l.foldl child_step acc).2.1 ∨
      (l.foldl child_step acc).1 = some i := by
  induction l with
  | nil => intro acc i h; left; exact h
  | cons a t ih =>
    intro acc i h
    simp only [List.foldl_cons] at h ⊢
    rcases ih (child_step acc a) i h with h2 | h2 | h2
    · rcases child_step_split acc a with ⟨_, heq⟩ | ⟨_, r, hr, heq⟩ | ⟨_, hn, heq⟩
      · rw [heq] at h2; left; exact h2
      · rw [heq] at h2
        by_cases hia : i = a
        · right; left
          rcases child_fold_queue_shape t (child_step acc a) with ⟨pre, hpre⟩
          rw [hpre, heq]
          simp [hia]
        · left
          simpa [updF, hia] using h2
      · rw [heq] at h2
        by_cases hia : i = a
        · right; right
          apply child_fold_result_stable t (child_step acc a) i
          rw [heq, hia]
        · left
          simpa [updF, hia] using h2
    · right; left; exact h2
    · right; right; exact h2

theorem child_step_other_counts (acc : Option Nat × List Nat × FlushState × List Event)
    (a e p : Nat) :
    entityVisitCount e (child_step acc a).2.2.2 = entityVisitCount e acc.2.2.2 ∧
    notifyCount e (child_step acc a).2.2.2 = notifyCount e acc.2.2.2 ∧
    recalcCount e (child_step acc a).2.2.2 = recalcCount e acc.2.2.2 ∧
    recalcDataCount e (child_step acc a).2.2.2 = recalcDataCount e acc.2.2.2 ∧
    posePushCount p (child_step acc a).2.2.2 = posePushCount p acc.2.2.2 := by
  rcases child_step_split acc a with ⟨_, heq⟩ | ⟨_, r, _, heq⟩ | ⟨_, _, heq⟩ <;>
    rw [heq] <;>
    refine ⟨?_, ?_, ?_, ?_, ?_⟩ <;>
    simp [entityVisitCount, notifyCount, recalcCount, recalcDataCount,
      posePushCount, List.countP_append, List.countP_cons]

theorem child_fold_other_counts (l : List Nat) :
    ∀ (acc : Option Nat × List Nat × FlushState × List Event) (e p : Nat),
    entityVisitCount e (l.foldl child_step acc).2.2.2 = entityVisitCount e acc.2.2.2 ∧
    notifyCount e (l.foldl child_step acc).2.2.2 = notifyCount e acc.2.2.2 ∧
    recalcCount e (l.foldl child_step acc).2.2.2 = recalcCount e acc.2.2.2 ∧
    recalcDataCount e (l.foldl child_step acc).2.2.2 = recalcDataCount e acc.2.2.2 ∧
    posePushCount p (l.foldl child_step acc).2.2.2 = posePushCount p acc.2.2.2 := by
  induction l with
  | nil => intro acc e p; exact ⟨rfl, rfl, rfl, rfl, rfl⟩
  | cons a t ih =>
    intro acc e p
    simp only [List.foldl_cons]
    rcases ih (child_step acc a) e p with ⟨h1, h2, h3, h4, h5⟩
    rcases child_step_other_counts acc a e p with ⟨k1, k2, k3, k4, k5⟩
    exact ⟨h1.trans k1, h2.trans k2, h3.trans k3, h4.trans k4, h5.trans k5⟩

theorem child_step_flip_inv (acc : Option Nat × List Nat × FlushState × List Event)
    (a i : Nat)
    (h : flipCount i acc.2.2.2 ≤ 1 ∧
      (1 ≤ flipCount i acc.2.2.2 → acc.2.2.1.scheduled i = true)) :
    flipCount i (child_step acc a).2.2.2 ≤ 1 ∧
    (1 ≤ flipCount i (child_step acc a).2.2.2 →
      (child_step acc a).2.2.1.scheduled i = true) := by
  rcases child_step_split acc a with ⟨_, heq⟩ | ⟨hs, r, _, heq⟩ | ⟨hs, _, heq⟩ <;>
    rw [heq]
  · exact h
  · by_cases hia : i = a
    · have hz : flipCount i acc.2.2.2 = 0 := by
        by_contra hnz
        have h1 := h.2 (Nat.pos_of_ne_zero hnz)
        rw [hia, hs] at h1; cases h1
      constructor
      · rw [flipCount_append, hz]
        simp [flipCount, List.countP_cons, hia]
      · intro _; simp [updF, hia]
    · have hai : ¬(a = i) := fun hc => hia hc.symm
      have hzero : flipCount i [Event.pushFront a, Event.schedFlip a] = 0 := by
        simp [flipCount, List.countP_cons, hai]
      constructor
      · rw [flipCount_append, hzero]
        simpa using h.1
      · intro h1
        rw [flipCount_append, hzero] at h1
        simp at h1
        simpa [updF, hia] using h.2 h1
  · by_cases hia : i = a
    · have hz : flipCount i acc.2.2.2 = 0 := by
        by_contra hnz
        have h1 := h.2 (Nat.pos_of_ne_zero hnz)
        rw [hia, hs] at h1; cases h1
      constructor
      · rw [flipCount_append, hz]
        simp [flipCount, List.countP_cons, hia]
      · intro _; simp [updF, hia]
    · have hai : ¬(a = i) := fun hc => hia hc.symm
      have hzero : flipCount i [Event.schedFlip a] = 0 := by
        simp [flipCount, List.countP_cons, hai]
      constructor
      · rw [flipCount_append, hzero]
        simpa using h.1
      · intro h1
        rw [flipCount_append, hzero] at h1
        simp at h1
        simpa [updF, hia] using h.2 h1

theorem child_fold_flip_inv (l : List Nat) :
    ∀ (acc : Option Nat × List Nat × FlushState × List Event) (i : Nat),
    (flipCount i acc.2.2.2 ≤ 1 ∧
      (1 ≤ flipCount i acc.2.2.2 → acc.2.2.1.scheduled i = true)) →
    (flipCount i (l.foldl child_step acc).2.2.2 ≤ 1 ∧
      (1 ≤ flipCount i (l.foldl child_step acc).2.2.2 →
        (l.foldl child_step acc).2.2.1.scheduled i = true)) := by
  induction l with
  | nil => intro acc i h; exact h
  | cons a t ih =>
    intro acc i h
    exact ih (child_step acc a) i (child_step_flip_inv acc a i h)

theorem child_step_gpc_inv (acc : Option Nat × List Nat × FlushState × List Event)
    (a i : Nat)
    (h : guardedPushCount i acc.2.2.2 ≤ 1 ∧
      (1 ≤ guardedPushCount i acc.2.2.2 → acc.2.2.1.scheduled i = true)) :
    guardedPushCount i (child_step acc a).2.2.2 ≤ 1 ∧
    (1 ≤ guardedPushCount i (child_step acc a).2.2.2 →
      (child_step acc a).2.2.1.scheduled i = true) := by
  rcases child_step_split acc a with ⟨_, heq⟩ | ⟨hs, r, _, heq⟩ | ⟨hs, _, heq⟩ <;>
    rw [heq]
  · exact h
  · by_cases hia : i = a
    · have hz : guardedPushCount i acc.2.2.2 = 0 := by
        by_contra hnz
        have h1 := h.2 (Nat.pos_of_ne_zero hnz)
        rw [hia, hs] at h1; cases h1
      constructor
      · rw [guardedPushCount_append, hz]
        simp [guardedPushCount, List.countP_cons, hia]
      · intro _; simp [updF, hia]
    · have hai : ¬(a = i) := fun hc => hia hc.symm
      have hzero : guardedPushCount i [Event.pushFront a, Event.schedFlip a] = 0 := by
        simp [guardedPushCount, List.countP_cons, hai]
      constructor
      · rw [guardedPushCount_append, hzero]
        simpa using h.1
      · intro h1
        rw [guardedPushCount_append, hzero] at h1
        simp at h1
        simpa [updF, hia] using h.2 h1
  · by_cases hia : i = a
    · constructor
      · rw [guardedPushCount_append]
        have : guardedPushCount i [Event.schedFlip a] = 0 := by
          simp [guardedPushCount, List.countP_cons]
        rw [this]
        simpa using h.1
      · intro _; simp [updF, hia]
    · have hzero : guardedPushCount i [Event.schedFlip a] = 0 := by
        simp [guardedPushCount, List.countP_cons]
      constructor
      · rw [guardedPushCount_append, hzero]
        simpa using h.1
      · intro h1
        rw [guardedPushCount_append, hzero] at h1
        simp at h1
        simpa [updF, hia] using h.2 h1

theorem child_fold_gpc_inv (l : List Nat) :
    ∀ (acc : Option Nat × List Nat × FlushState × List Event) (i : Nat),
    (guardedPushCount i acc.2.2.2 ≤ 1 ∧
      (1 ≤ guardedPushCount i acc.2.2.2 → acc.2.2.1.scheduled i = true)) →
    (guardedPushCount i (l.foldl child_step acc).2.2.2 ≤ 1 ∧
      (1 ≤ guardedPushCount i (l.foldl child_step acc).2.2.2 →
        (l.foldl child_step acc).2.2.1.scheduled i = true)) := by
  induction l with
  | nil => intro acc i h; exact h
  | cons a t ih =>
    intro acc i h
    exact ih (child_step acc a) i (child_step_gpc_inv acc a i h)

theorem child_step_measure (g : Depsgraph)
    (acc : Option Nat × List Nat × FlushState × List Event) (a : Nat)
    (ha : a ∈ touchable g) :
    2 * schedMeasure g (child_step acc a).2.2.1 +
      2 * (child_step acc a).2.1.length + activeWeight (child_step acc a).1 ≤
    2 * schedMeasure g acc.2.2.1 + 2 * acc.2.1.length + activeWeight acc.1 := by
  have hlt : acc.2.2.1.scheduled a = false →
      schedMeasure g
        { scheduled := updF acc.2.2.1.scheduled a true,
          opFlag := acc.2.2.1.opFlag, compDone := acc.2.2.1.compDone,
          idDone := acc.2.2.1.idDone, cowTag := acc.2.2.1.cowTag,
          entry_tags := acc.2.2.1.entry_tags } <
      schedMeasure g acc.2.2.1 := by
    intro hs
    apply countP_lt_flip _ _ _ a ha
    · intro j _ hqj
      simp only [Bool.not_eq_true'] at hqj ⊢
      by_cases hja : j = a
      · exfalso
        rw [hja] at hqj
        simp [updF] at hqj
      · simpa [updF, hja] using hqj
    · simp [hs]
    · simp [updF]
  rcases child_step_split acc a with ⟨_, heq⟩ | ⟨hs, r, hr, heq⟩ | ⟨hs, hn, heq⟩
  · rw [heq]
  · have hlt2 := hlt hs
    rw [heq, hr]
    dsimp only
    simp only [List.length_cons, activeWeight]
    omega
  · have hlt2 := hlt hs
    rw [heq, hn]
    dsimp only
    simp only [activeWeight]
    omega

theorem child_fold_measure (g : Depsgraph) (l : List Nat)
    (hl : ∀ t ∈ l, t ∈ touchable g) :
    ∀ acc : Option Nat × List Nat × FlushState × List Event,
    2 * schedMeasure g (l.foldl child_step acc).2.2.1 +
      2 * (l.foldl child_step acc).2.1.length +
      activeWeight (l.foldl child_step acc).1 ≤
    2 * schedMeasure g acc.2.2.1 + 2 * acc.2.1.length + activeWeight acc.1 := by
  induction l with
  | nil => intro acc; exact Nat.le_refl _
  | cons a t ih =>
    intro acc
    simp only [List.foldl_cons]
    have h1 := ih (fun t2 ht2 => hl t2 (List.mem_cons_of_mem _ ht2)) (child_step acc a)
    have h2 := child_step_measure g acc a (hl a (List.mem_cons_self _ _))
    exact h1.trans h2

theorem comp_handler_flip_gpc (g : Depsgraph) (idn : IDDepsNode)
    (comp : ComponentDepsNode) (u : Bool) (q : List Nat) (s : FlushState)
    (tr : List Event) (i : Nat) :
    flipCount i (flush_handle_component_node g idn comp u q s tr).2.2 =
      flipCount i tr ∧
    guardedPushCount i (flush_handle_component_node g idn comp u q s tr).2.2 =
      guardedPushCount i tr := by
  unfold flush_handle_component_node
  by_cases hd : s.compDone comp.compId = COMPONENT_STATE_DONE
  · simp [hd]
  · simp only [if_neg hd]
    rcases bone_rule_flip_gpc g idn comp q
      (comp.operations.foldl (tag_step g)
        { s with compDone := updF s.compDone comp.compId COMPONENT_STATE_DONE })
      (cow_retag_events g idn comp u tr) i with ⟨b1, b2⟩
    rcases cow_retag_counts g idn comp u tr i 0 0 with ⟨c1, c2, _⟩
    exact ⟨b1.trans c1, b2.trans c2⟩

/-! Wrappers of the child-fold lemmas at the `flush_schedule_children` level,
and characterization of one propagation-loop step. -/

theorem children_fields (op : OperationDepsNode) (q : List Nat) (s : FlushState)
    (tr : List Event) :
    (flush_schedule_children op q s tr).2.2.1.opFlag = s.opFlag ∧
    (flush_schedule_children op q s tr).2.2.1.compDone = s.compDone ∧
    (flush_schedule_children op q s tr).2.2.1.idDone = s.idDone ∧
    (flush_schedule_children op q s tr).2.2.1.cowTag = s.cowTag ∧
    (flush_schedule_children op q s tr).2.2.1.entry_tags = s.entry_tags :=
  child_fold_fields op.outlinks (none, q, s, tr)

theorem children_sched_mono (op : OperationDepsNode) (q : List Nat)
    (s : FlushState) (tr : List Event) (i : Nat) (h : s.scheduled i = true) :
    (flush_schedule_children op q s tr).2.2.1.scheduled i = true :=
  child_fold_sched_mono op.outlinks (none, q, s, tr) i h

theorem children_all_scheduled (op : OperationDepsNode) (q : List Nat)
    (s : FlushState) (tr : List Event) (t : Nat) (h : t ∈ op.outlinks) :
    (flush_schedule_children op q s tr).2.2.1.scheduled t = true :=
  child_fold_all_scheduled op.outlinks (none, q, s, tr) t h

theorem children_queue_shape (op : OperationDepsNode) (q : List Nat)
    (s : FlushState) (tr : List Event) :
    ∃ pre : List Nat, (flush_schedule_children op q s tr).2.1 = pre ++ q :=
  child_fold_queue_shape op.outlinks (none, q, s, tr)

theorem children_new_sched (op : OperationDepsNode) (q : List Nat)
    (s : FlushState) (tr : List Event) (i : Nat)
    (h : (flush_schedule_children op q s tr).2.2.1.scheduled i = true) :
    s.scheduled i = true ∨ i ∈ (flush_schedule_children op q s tr).2.1 ∨
      (flush_schedule_children op q s tr).1 = some i :=
  child_fold_new_sched op.outlinks (none, q, s, tr) i h

theorem children_other_counts (op : OperationDepsNode) (q : List Nat)
    (s : FlushState) (tr : List Event) (e p : Nat) :
    entityVisitCount e (flush_schedule_children op q s tr).2.2.2 =
      entityVisitCount e tr ∧
    notifyCount e (flush_schedule_children op q s tr).2.2.2 = notifyCount e tr ∧
    recalcCount e (flush_schedule_children op q s tr).2.2.2 = recalcCount e tr ∧
    recalcDataCount e (flush_schedule_children op q s tr).2.2.2 =
      recalcDataCount e tr ∧
    posePushCount p (flush_schedule_children op q s tr).2.2.2 =
      posePushCount p tr :=
  child_fold_other_counts op.outlinks (none, q, s, tr) e p

theorem children_flip_inv (op : OperationDepsNode) (q : List Nat)
    (s : FlushState) (tr : List Event) (i : Nat)
    (h : flipCount i tr ≤ 1 ∧ (1 ≤ flipCount i tr → s.scheduled i = true)) :
    flipCount i (flush_schedule_children op q s tr).2.2.2 ≤ 1 ∧
    (1 ≤ flipCount i (flush_schedule_children op q s tr).2.2.2 →
      (flush_schedule_children op q s tr).2.2.1.scheduled i = true) :=
  child_fold_flip_inv op.outlinks (none, q, s, tr) i h

theorem children_gpc_inv (op : OperationDepsNode) (q : List Nat)
    (s : FlushState) (tr : List Event) (i : Nat)
    (h : guardedPushCount i tr ≤ 1 ∧
      (1 ≤ guardedPushCount i tr → s.scheduled i = true)) :
    guardedPushCount i (flush_schedule_children op q s tr).2.2.2 ≤ 1 ∧
    (1 ≤ guardedPushCount i (flush_schedule_children op q s tr).2.2.2 →
      (flush_schedule_children op q s tr).2.2.1.scheduled i = true) :=
  child_fold_gpc_inv op.outlinks (none, q, s, tr) i h

theorem touchable_of_outlink {g : Depsgraph} {op : OperationDepsNode}
    (hmem : op ∈ g.operations) {t : Nat} (ht : t ∈ op.outlinks) :
    t ∈ touchable g := by
  unfold touchable
  rw [List.mem_dedup]
  rw [List.mem_flatten]
  exact ⟨op.outlinks, List.mem_map.mpr ⟨op, hmem, rfl⟩, ht⟩

theorem children_measure (g : Depsgraph) (op : OperationDepsNode)
    (hl : ∀ t ∈ op.outlinks, t ∈ touchable g) (q : List Nat) (s : FlushState)
    (tr : List Event) :
    2 * schedMeasure g (flush_schedule_children op q s tr).2.2.1 +
      2 * (flush_schedule_children op q s tr).2.1.length +
      activeWeight (flush_schedule_children op q s tr).1 ≤
    2 * schedMeasure g s + 2 * q.length := by
  have h := child_fold_measure g op.outlinks hl (none, q, s, tr)
  simpa [activeWeight] using h

theorem updF_or_nu_self (f : Nat → Nat) (n : Nat) :
    ((updF f n (f n ||| DEPSOP_FLAG_NEEDS_UPDATE)) n).testBit 0 = true := by
  have hval : (updF f n (f n ||| DEPSOP_FLAG_NEEDS_UPDATE)) n =
      f n ||| DEPSOP_FLAG_NEEDS_UPDATE := by
    simp [updF]
  rw [hval]
  exact nu_bit_set _

theorem updF_or_nu_mono (f : Nat → Nat) (n i : Nat)
    (h : (f i).testBit 0 = true) :
    ((updF f n (f n ||| DEPSOP_FLAG_NEEDS_UPDATE)) i).testBit 0 = true := by
  by_cases hin : i = n
  · subst hin
    have hval : (updF f i (f i ||| DEPSOP_FLAG_NEEDS_UPDATE)) i =
        f i ||| DEPSOP_FLAG_NEEDS_UPDATE := by
      simp [updF]
    rw [hval, Nat.testBit_or, h]
    rfl
  · simp only [updF, if_neg hin]
    exact h

theorem flushLoop_succ (g : Depsgraph) (u : Bool) (fuel : Nat) (ls : LoopState) :
    flushLoop g u (fuel + 1) ls =
      if isDoneB ls then ls else flushLoop g u fuel (flushStep g u ls) := rfl

theorem flushStep_split (g : Depsgraph) (u : Bool) (ls : LoopState) :
    (isDoneB ls = true ∧ flushStep g u ls = ls) ∨
    (∃ q rest, ls.active = none ∧ ls.queue = q :: rest ∧
      flushStep g u ls = ⟨rest, some q, ls.st, ls.trace⟩) ∨
    (∃ n, ls.active = some n ∧
      flushStep g u ls = processNode g u n ls.queue ls.st ls.trace) := by
  cases hact : ls.active with
  | none =>
    cases hq : ls.queue with
    | nil =>
      left
      constructor
      · simp [isDoneB, hact, hq]
      · simp [flushStep, hact, hq]
    | cons q rest =>
      right; left
      exact ⟨q, rest, rfl, rfl, by simp [flushStep, hact, hq]⟩
  | some n =>
    right; right
    exact ⟨n, rfl, by simp [flushStep, hact]⟩

theorem processNode_split (g : Depsgraph) (u : Bool) (n : Nat) (queue : List Nat)
    (st : FlushState) (tr : List Event) :
    (findOp g n = none ∧ processNode g u n queue st tr = ⟨queue, none, st, tr⟩) ∨
    (∃ op_node, findOp g n = some op_node ∧
      (findCompNode g op_node.owner = none ∨
        ∃ comp_node, findCompNode g op_node.owner = some comp_node ∧
          findIdNode g comp_node.owner = none) ∧
      processNode g u n queue st tr = ⟨queue, none, nuTag st n, tr⟩) ∨
    (∃ op_node comp_node idn,
      findOp g n = some op_node ∧
      findCompNode g op_node.owner = some comp_node ∧
      findIdNode g comp_node.owner = some idn ∧
      processNode g u n queue st tr =
        processNodeMain g u op_node comp_node idn n queue st tr) := by
  rcases hfo : findOp g n with _ | op
  · left
    exact ⟨rfl, by simp [processNode, hfo]⟩
  · rcases hfc : findCompNode g op.owner with _ | comp
    · right; left
      exact ⟨op, rfl, Or.inl hfc, by simp [processNode, hfo, hfc]⟩
    · rcases hfi : findIdNode g comp.owner with _ | idn
      · right; left
        exact ⟨op, rfl, Or.inr ⟨comp, hfc, hfi⟩, by simp [processNode, hfo, hfc, hfi]⟩
      · right; right
        exact ⟨op, comp, idn, rfl, hfc, hfi, by simp [processNode, hfo, hfc, hfi]⟩

theorem nuTag_fields (st : FlushState) (n : Nat) :
    (nuTag st n).scheduled = st.scheduled ∧
    (nuTag st n).compDone = st.compDone ∧
    (nuTag st n).idDone = st.idDone ∧
    (nuTag st n).cowTag = st.cowTag ∧
    (nuTag st n).entry_tags = st.entry_tags :=
  ⟨rfl, rfl, rfl, rfl, rfl⟩

theorem flushStep_entry (g : Depsgraph) (u : Bool) (ls : LoopState) :
    (flushStep g u ls).st.entry_tags = ls.st.entry_tags := by
  rcases flushStep_split g u ls with ⟨_, heq⟩ | ⟨q, rest, _, _, heq⟩ | ⟨n, hact, heq⟩
  · rw [heq]
  · rw [heq]
  · rw [heq]
    rcases processNode_split g u n ls.queue ls.st ls.trace with
      ⟨_, hpq⟩ | ⟨op, _, _, hpq⟩ | ⟨op, comp, idn, hfo, hfc, hfi, hpq⟩
    · rw [hpq]
    · rw [hpq]; rfl
    · rw [hpq]
      unfold processNodeMain
      dsimp only
      rw [(children_fields _ _ _ _).2.2.2.2,
        (comp_handler_fields _ _ _ _ _ _ _).2.2.2,
        (id_handler_fields _ _ _).2.2.2]
      rfl

theorem flushStep_sched_mono (g : Depsgraph) (u : Bool) (ls : LoopState)
    (i : Nat) (h : ls.st.scheduled i = true) :
    (flushStep g u ls).st.scheduled i = true := by
  rcases flushStep_split g u ls with ⟨_, heq⟩ | ⟨q, rest, _, _, heq⟩ | ⟨n, hact, heq⟩
  · rw [heq]; exact h
  · rw [heq]; exact h
  · rw [heq]
    rcases processNode_split g u n ls.queue ls.st ls.trace with
      ⟨_, hpq⟩ | ⟨op, _, _, hpq⟩ | ⟨op, comp, idn, hfo, hfc, hfi, hpq⟩
    · rw [hpq]; exact h
    · rw [hpq]; exact h
    · rw [hpq]
      unfold processNodeMain
      dsimp only
      apply children_sched_mono
      rw [(comp_handler_fields _ _ _ _ _ _ _).1, (id_handler_fields _ _ _).1]
      exact h

theorem flushStep_nu_mono (g : Depsgraph) (u : Bool) (ls : LoopState)
    (i : Nat) (h : hasNeedsUpdate ls.st i = true) :
    hasNeedsUpdate (flushStep g u ls).st i = true := by
  rcases flushStep_split g u ls with ⟨_, heq⟩ | ⟨q, rest, _, _, heq⟩ | ⟨n, hact, heq⟩
  · rw [heq]; exact h
  · rw [heq]; exact h
  · rw [heq]
    rcases processNode_split g u n ls.queue ls.st ls.trace with
      ⟨_, hpq⟩ | ⟨op, _, _, hpq⟩ | ⟨op, comp, idn, hfo, hfc, hfi, hpq⟩
    · rw [hpq]; exact h
    · rw [hpq]
      exact updF_or_nu_mono _ n i h
    · rw [hpq]
      unfold processNodeMain
      dsimp only
      have h1 : ((nuTag ls.st n).opFlag i).testBit 0 = true :=
        updF_or_nu_mono _ n i h
      have h2 : ((flush_handle_id_node idn (nuTag ls.st n) ls.trace).1.opFlag i).testBit 0
          = true := by
        rw [(id_handler_fields _ _ _).2.1]; exact h1
      have h3 := comp_handler_nu_mono g idn comp u ls.queue
        (flush_handle_id_node idn (nuTag ls.st n) ls.trace).1
        (flush_handle_id_node idn (nuTag ls.st n) ls.trace).2 i h2
      unfold hasNeedsUpdate
      rw [(children_fields _ _ _ _).1]
      exact h3

theorem flushStep_done_progress (g : Depsgraph) (u : Bool) (ls : LoopState)
    (c : Nat) :
    (flushStep g u ls).st.compDone c = ls.st.compDone c ∨
    (flushStep g u ls).st.compDone c = COMPONENT_STATE_DONE ∨
    (ls.st.compDone c = COMPONENT_STATE_NONE ∧
      (flushStep g u ls).st.compDone c = COMPONENT_STATE_SCHEDULED) := by
  rcases flushStep_split g u ls with ⟨_, heq⟩ | ⟨q, rest, _, _, heq⟩ | ⟨n, hact, heq⟩
  · rw [heq]; left; rfl
  · rw [heq]; left; rfl
  · rw [heq]
    rcases processNode_split g u n ls.queue ls.st ls.trace with
      ⟨_, hpq⟩ | ⟨op, _, _, hpq⟩ | ⟨op, comp, idn, hfo, hfc, hfi, hpq⟩
    · rw [hpq]; left; rfl
    · rw [hpq]; left; rfl
    · rw [hpq]
      unfold processNodeMain
      dsimp only
      rw [(children_fields _ _ _ _).2.1]
      have hid := (id_handler_fields idn (nuTag ls.st n) ls.trace).2.2.1
      rcases comp_handler_done_progress g idn comp u ls.queue
        (flush_handle_id_node idn (nuTag ls.st n) ls.trace).1
        (flush_handle_id_node idn (nuTag ls.st n) ls.trace).2 c with hc | hc | ⟨hc1, hc2⟩
      · left
        rw [hc, hid]; rfl
      · right; left
        rw [hc]
      · right; right
        rw [hid] at hc1
        exact ⟨hc1, hc2⟩

/-- Per-operation invariant: the scheduled flag flips at most once, and a
recorded flip means the flag is set. -/
def flipInv (ls : LoopState) (i : Nat) : Prop :=
  flipCount i ls.trace ≤ 1 ∧
  (1 ≤ flipCount i ls.trace → ls.st.scheduled i = true)

theorem flushStep_flip_inv (g : Depsgraph) (u : Bool) (ls : LoopState) (i : Nat)
    (h : flipInv ls i) : flipInv (flushStep g u ls) i := by
  rcases flushStep_split g u ls with ⟨_, heq⟩ | ⟨q, rest, _, _, heq⟩ | ⟨n, hact, heq⟩
  · rw [heq]; exact h
  · rw [heq]; exact h
  · rw [heq]
    rcases processNode_split g u n ls.queue ls.st ls.trace with
      ⟨_, hpq⟩ | ⟨op, _, _, hpq⟩ | ⟨op, comp, idn, hfo, hfc, hfi, hpq⟩
    · rw [hpq]; exact h
    · rw [hpq]; exact h
    · rw [hpq]
      unfold processNodeMain flipInv
      dsimp only
      apply children_flip_inv
      rcases comp_handler_flip_gpc g idn comp u ls.queue
        (flush_handle_id_node idn (nuTag ls.st n) ls.trace).1
        (flush_handle_id_node idn (nuTag ls.st n) ls.trace).2 i with ⟨hcc, _⟩
      rw [hcc, (comp_handler_fields _ _ _ _ _ _ _).1,
        (id_handler_sched_counts idn (nuTag ls.st n) ls.trace i 0).1,
        (id_handler_fields _ _ _).1]
      exact h

/-- Per-operation invariant for guarded worklist insertions. -/
def gpcInv (ls : LoopState) (i : Nat) : Prop :=
  guardedPushCount i ls.trace ≤ 1 ∧
  (1 ≤ guardedPushCount i ls.trace → ls.st.scheduled i = true)

theorem flushStep_gpc_inv (g : Depsgraph) (u : Bool) (ls : LoopState) (i : Nat)
    (h : gpcInv ls i) : gpcInv (flushStep g u ls) i := by
  rcases flushStep_split g u ls with ⟨_, heq⟩ | ⟨q, rest, _, _, heq⟩ | ⟨n, hact, heq⟩
  · rw [heq]; exact h
  · rw [heq]; exact h
  · rw [heq]
    rcases processNode_split g u n ls.queue ls.st ls.trace with
      ⟨_, hpq⟩ | ⟨op, _, _, hpq⟩ | ⟨op, comp, idn, hfo, hfc, hfi, hpq⟩
    · rw [hpq]; exact h
    · rw [hpq]; exact h
    · rw [hpq]
      unfold processNodeMain gpcInv
      dsimp only
      apply children_gpc_inv
      rcases comp_handler_flip_gpc g idn comp u ls.queue
        (flush_handle_id_node idn (nuTag ls.st n) ls.trace).1
        (flush_handle_id_node idn (nuTag ls.st n) ls.trace).2 i with ⟨_, hcc⟩
      rw [hcc, (comp_handler_fields _ _ _ _ _ _ _).1,
        (id_handler_sched_counts idn (nuTag ls.st n) ls.trace i 0).2.1,
        (id_handler_fields _ _ _).1]
      exact h

/-- Per-pose-component invariant: the bone rule pushes the entry operation
at most once, and a recorded push means the marker has left NONE. -/
def poseInv (ls : LoopState) (p : Nat) : Prop :=
  posePushCount p ls.trace ≤ 1 ∧
  (1 ≤ posePushCount p ls.trace →
    ls.st.compDone p ≠ COMPONENT_STATE_NONE)

theorem flushStep_pose_inv (g : Depsgraph) (u : Bool) (ls : LoopState) (p : Nat)
    (h : poseInv ls p) : poseInv (flushStep g u ls) p := by
  rcases flushStep_split g u ls with ⟨_, heq⟩ | ⟨q, rest, _, _, heq⟩ | ⟨n, hact, heq⟩
  · rw [heq]; exact h
  · rw [heq]; exact h
  · rw [heq]
    rcases processNode_split g u n ls.queue ls.st ls.trace with
      ⟨_, hpq⟩ | ⟨op, _, _, hpq⟩ | ⟨op, comp, idn, hfo, hfc, hfi, hpq⟩
    · rw [hpq]; exact h
    · rw [hpq]; exact h
    · rw [hpq]
      unfold processNodeMain poseInv
      dsimp only
      have hid : posePushCount p (flush_handle_id_node idn (nuTag ls.st n) ls.trace).2 =
          posePushCount p ls.trace :=
        (id_handler_sched_counts idn (nuTag ls.st n) ls.trace 0 p).2.2.2
      have h1 : posePushCount p (flush_handle_id_node idn (nuTag ls.st n) ls.trace).2 ≤ 1 ∧
          (1 ≤ posePushCount p (flush_handle_id_node idn (nuTag ls.st n) ls.trace).2 →
            (flush_handle_id_node idn (nuTag ls.st n) ls.trace).1.compDone p ≠
              COMPONENT_STATE_NONE) := by
        rw [hid, (id_handler_fields _ _ _).2.2.1]
        exact h
      have h2 := comp_handler_poseInv g idn comp u ls.queue
        (flush_handle_id_node idn (nuTag ls.st n) ls.trace).1
        (flush_handle_id_node idn (nuTag ls.st n) ls.trace).2 p h1
      rcases children_other_counts op
        (flush_handle_component_node g idn comp u ls.queue
          (flush_handle_id_node idn (nuTag ls.st n) ls.trace).1
          (flush_handle_id_node idn (nuTag ls.st n) ls.trace).2).1
        (flush_handle_component_node g idn comp u ls.queue
          (flush_handle_id_node idn (nuTag ls.st n) ls.trace).1
          (flush_handle_id_node idn (nuTag ls.st n) ls.trace).2).2.1
        (flush_handle_component_node g idn comp u ls.queue
          (flush_handle_id_node idn (nuTag ls.st n) ls.trace).1
          (flush_handle_id_node idn (nuTag ls.st n) ls.trace).2).2.2 0 p
        with ⟨_, _, _, _, hcc⟩
      rw [hcc, (children_fields _ _ _ _).2.1]
      exact h2

theorem flushStep_entity_inv (g : Depsgraph) (u : Bool) (ls : LoopState)
    (h : entityInv g ls.st ls.trace) :
    entityInv g (flushStep g u ls).st (flushStep g u ls).trace := by
  rcases flushStep_split g u ls with ⟨_, heq⟩ | ⟨q, rest, _, _, heq⟩ | ⟨n, hact, heq⟩
  · rw [heq]; exact h
  · rw [heq]; exact h
  · rw [heq]
    rcases processNode_split g u n ls.queue ls.st ls.trace with
      ⟨_, hpq⟩ | ⟨op, _, _, hpq⟩ | ⟨op, comp, idn, hfo, hfc, hfi, hpq⟩
    · rw [hpq]; exact h
    · rw [hpq]; exact h
    · rw [hpq]
      unfold processNodeMain
      dsimp only
      have h1 : entityInv g (flush_handle_id_node idn (nuTag ls.st n) ls.trace).1
          (flush_handle_id_node idn (nuTag ls.st n) ls.trace).2 :=
        id_handler_entityInv (findIdNode_self hfi) (nuTag ls.st n) ls.trace h
      have h2 : entityInv g
          (flush_handle_component_node g idn comp u ls.queue
            (flush_handle_id_node idn (nuTag ls.st n) ls.trace).1
            (flush_handle_id_node idn (nuTag ls.st n) ls.trace).2).2.1
          (flush_handle_component_node g idn comp u ls.queue
            (flush_handle_id_node idn (nuTag ls.st n) ls.trace).1
            (flush_handle_id_node idn (nuTag ls.st n) ls.trace).2).2.2 := by
        intro e
        rcases h1 e with ⟨ha, hb⟩
        rcases comp_handler_entity_counts g idn comp u ls.queue
          (flush_handle_id_node idn (nuTag ls.st n) ls.trace).1
          (flush_handle_id_node idn (nuTag ls.st n) ls.trace).2 e with ⟨c1, c2, c3, c4⟩
        have hdone := (comp_handler_fields g idn comp u ls.queue
          (flush_handle_id_node idn (nuTag ls.st n) ls.trace).1
          (flush_handle_id_node idn (nuTag ls.st n) ls.trace).2).2.1
        constructor
        · intro hno
          rw [c1, c2, c3, c4]
          exact ha hno
        · intro idn2 hidn2
          rw [hdone, c1, c2, c3, c4]
          exact hb idn2 hidn2
      intro e
      rcases h2 e with ⟨ha, hb⟩
      rcases children_other_counts op
        (flush_handle_component_node g idn comp u ls.queue
          (flush_handle_id_node idn (nuTag ls.st n) ls.trace).1
          (flush_handle_id_node idn (nuTag ls.st n) ls.trace).2).1
        (flush_handle_component_node g idn comp u ls.queue
          (flush_handle_id_node idn (nuTag ls.st n) ls.trace).1
          (flush_handle_id_node idn (nuTag ls.st n) ls.trace).2).2.1
        (flush_handle_component_node g idn comp u ls.queue
          (flush_handle_id_node idn (nuTag ls.st n) ls.trace).1
          (flush_handle_id_node idn (nuTag ls.st n) ls.trace).2).2.2 e 0
        with ⟨c1, c2, c3, c4, _⟩
      have hdone := (children_fields op
        (flush_handle_component_node g idn comp u ls.queue
          (flush_handle_id_node idn (nuTag ls.st n) ls.trace).1
          (flush_handle_id_node idn (nuTag ls.st n) ls.trace).2).1
        (flush_handle_component_node g idn comp u ls.queue
          (flush_handle_id_node idn (nuTag ls.st n) ls.trace).1
          (flush_handle_id_node idn (nuTag ls.st n) ls.trace).2).2.1
        (flush_handle_component_node g idn comp u ls.queue
          (flush_handle_id_node idn (nuTag ls.st n) ls.trace).1
          (flush_handle_id_node idn (nuTag ls.st n) ls.trace).2).2.2).2.2.1
      constructor
      · intro hno
        rw [c1, c2, c3, c4]
        exact ha hno
      · intro idn2 hidn2
        rw [hdone, c1, c2, c3, c4]
        exact hb idn2 hidn2

theorem flushStep_measure (g : Depsgraph) (u : Bool) (ls : LoopState)
    (hnd : isDoneB ls = false) :
    loopMeasure g (flushStep g u ls) < loopMeasure g ls := by
  rcases flushStep_split g u ls with ⟨hd, _⟩ | ⟨q, rest, hact, hqueue, heq⟩ | ⟨n, hact, heq⟩
  · rw [hd] at hnd; cases hnd
  · rw [heq]
    unfold loopMeasure
    rw [hact, hqueue]
    dsimp only
    simp only [activeWeight, List.length_cons]
    omega
  · rw [heq]
    rcases processNode_split g u n ls.queue ls.st ls.trace with
      ⟨_, hpq⟩ | ⟨op, _, _, hpq⟩ | ⟨op, comp, idn, hfo, hfc, hfi, hpq⟩
    · rw [hpq]
      unfold loopMeasure
      rw [hact]
      dsimp only
      simp only [activeWeight]
      omega
    · rw [hpq]
      unfold loopMeasure
      rw [hact]
      dsimp only
      have e1 : schedMeasure g (nuTag ls.st n) = schedMeasure g ls.st := rfl
      have e2 : compMeasure g (nuTag ls.st n) = compMeasure g ls.st := rfl
      rw [e1, e2]
      simp only [activeWeight]
      omega
    · rw [hpq]
      unfold processNodeMain
      dsimp only
      unfold loopMeasure
      rw [hact]
      dsimp only
      have hchm := children_measure g op
        (fun t ht => touchable_of_outlink (mem_of_findOp hfo) ht)
        (flush_handle_component_node g idn comp u ls.queue
          (flush_handle_id_node idn (nuTag ls.st n) ls.trace).1
          (flush_handle_id_node idn (nuTag ls.st n) ls.trace).2).1
        (flush_handle_component_node g idn comp u ls.queue
          (flush_handle_id_node idn (nuTag ls.st n) ls.trace).1
          (flush_handle_id_node idn (nuTag ls.st n) ls.trace).2).2.1
        (flush_handle_component_node g idn comp u ls.queue
          (flush_handle_id_node idn (nuTag ls.st n) ls.trace).1
          (flush_handle_id_node idn (nuTag ls.st n) ls.trace).2).2.2
      have hBc : compMeasure g
          (flush_schedule_children op
            (flush_handle_component_node g idn comp u ls.queue
              (flush_handle_id_node idn (nuTag ls.st n) ls.trace).1
              (flush_handle_id_node idn (nuTag ls.st n) ls.trace).2).1
            (flush_handle_component_node g idn comp u ls.queue
              (flush_handle_id_node idn (nuTag ls.st n) ls.trace).1
              (flush_handle_id_node idn (nuTag ls.st n) ls.trace).2).2.1
            (flush_handle_component_node g idn comp u ls.queue
              (flush_handle_id_node idn (nuTag ls.st n) ls.trace).1
              (flush_handle_id_node idn (nuTag ls.st n) ls.trace).2).2.2).2.2.1 =
          compMeasure g
            (flush_handle_component_node g idn comp u ls.queue
              (flush_handle_id_node idn (nuTag ls.st n) ls.trace).1
              (flush_handle_id_node idn (nuTag ls.st n) ls.trace).2).2.1 := by
        unfold compMeasure
        rw [(children_fields _ _ _ _).2.1]
      have hcm := comp_handler_measure g idn comp u ls.queue
        (flush_handle_id_node idn (nuTag ls.st n) ls.trace).1
        (flush_handle_id_node idn (nuTag ls.st n) ls.trace).2
      have hA2 : schedMeasure g
          (flush_handle_component_node g idn comp u ls.queue
            (flush_handle_id_node idn (nuTag ls.st n) ls.trace).1
            (flush_handle_id_node idn (nuTag ls.st n) ls.trace).2).2.1 =
          schedMeasure g (flush_handle_id_node idn (nuTag ls.st n) ls.trace).1 := by
        unfold schedMeasure
        rw [(comp_handler_fields _ _ _ _ _ _ _).1]
      have hA1 : schedMeasure g (flush_handle_id_node idn (nuTag ls.st n) ls.trace).1 =
          schedMeasure g ls.st := by
        unfold schedMeasure
        rw [(id_handler_fields _ _ _).1]
        rfl
      have hB1 : compMeasure g (flush_handle_id_node idn (nuTag ls.st n) ls.trace).1 =
          compMeasure g ls.st := by
        unfold compMeasure
        rw [(id_handler_fields _ _ _).2.2.1]
        rfl
      simp only [activeWeight] at hchm ⊢
      omega

/-- Completeness invariant of the propagation loop: every scheduled
operation node is still in the worklist, is the active node, or has been
processed (tagged, with all its link targets scheduled). -/
def InvC2 (g : Depsgraph) (ls : LoopState) : Prop :=
  ∀ i op, findOp g i = some op → ls.st.scheduled i = true →
    i ∈ ls.queue ∨ ls.active = some i ∨
    (hasNeedsUpdate ls.st i = true ∧
      ∀ t ∈ op.outlinks, ls.st.scheduled t = true)

theorem flushStep_INV (g : Depsgraph) (u : Bool) (hwf : wfOwnersB g = true)
    (ls : LoopState) (h : InvC2 g ls) : InvC2 g (flushStep g u ls) := by
  rcases flushStep_split g u ls with ⟨_, heq⟩ | ⟨q, rest, hact, hqueue, heq⟩ | ⟨n, hact, heq⟩
  · rw [heq]; exact h
  · rw [heq]
    intro i op hf hs
    rcases h i op hf hs with hq | hq | hq
    · rw [hqueue] at hq
      rcases List.mem_cons.mp hq with rfl | hmem
      · right; left; rfl
      · left; exact hmem
    · rw [hact] at hq; cases hq
    · right; right; exact hq
  · rw [heq]
    rcases processNode_split g u n ls.queue ls.st ls.trace with
      ⟨hfo, hpq⟩ | ⟨op0, hfo, hbad, hpq⟩ | ⟨op0, comp0, idn0, hfo, hfc, hfi, hpq⟩
    · rw [hpq]
      intro i op hf hs
      rcases h i op hf hs with hq | hq | hq
      · left; exact hq
      · exfalso
        rw [hact] at hq
        have hni : n = i := Option.some.inj hq
        rw [← hni, hfo] at hf
        cases hf
      · right; right; exact hq
    · exfalso
      rcases wfOwnersB_resolve hwf hfo with ⟨comp, idn, hc, hi⟩
      rcases hbad with hb | ⟨comp2, hc2, hi2⟩
      · rw [hb] at hc; cases hc
      · rw [hc2] at hc
        have hceq : comp2 = comp := Option.some.inj hc
        rw [hceq] at hi2
        rw [hi2] at hi
        cases hi
    · rw [hpq]
      unfold processNodeMain
      dsimp only
      intro i op hf hs
      rcases children_new_sched _ _ _ _ i hs with hold | hmem | hres
      · have hold2 : ls.st.scheduled i = true := by
          rw [(comp_handler_fields _ _ _ _ _ _ _).1, (id_handler_fields _ _ _).1]
            at hold
          exact hold
        rcases h i op hf hold2 with hq | hq | hq
        · left
          rcases children_queue_shape op0
            (flush_handle_component_node g idn0 comp0 u ls.queue
              (flush_handle_id_node idn0 (nuTag ls.st n) ls.trace).1
              (flush_handle_id_node idn0 (nuTag ls.st n) ls.trace).2).1
            (flush_handle_component_node g idn0 comp0 u ls.queue
              (flush_handle_id_node idn0 (nuTag ls.st n) ls.trace).1
              (flush_handle_id_node idn0 (nuTag ls.st n) ls.trace).2).2.1
            (flush_handle_component_node g idn0 comp0 u ls.queue
              (flush_handle_id_node idn0 (nuTag ls.st n) ls.trace).1
              (flush_handle_id_node idn0 (nuTag ls.st n) ls.trace).2).2.2
            with ⟨pre3, h3⟩
          rcases comp_handler_queue g idn0 comp0 u ls.queue
            (flush_handle_id_node idn0 (nuTag ls.st n) ls.trace).1
            (flush_handle_id_node idn0 (nuTag ls.st n) ls.trace).2 with ⟨pre2, h2⟩
          rw [h3, h2]
          simp [hq]
        · have hni : n = i := by
            rw [hact] at hq
            exact Option.some.inj hq
          subst hni
          right; right
          have hopeq : op = op0 := by
            rw [hfo] at hf
            exact (Option.some.inj hf).symm
          constructor
          · have h1 : ((nuTag ls.st n).opFlag n).testBit 0 = true :=
              updF_or_nu_self _ n
            have h2 : ((flush_handle_id_node idn0 (nuTag ls.st n) ls.trace).1.opFlag n).testBit 0
                = true := by
              rw [(id_handler_fields _ _ _).2.1]; exact h1
            have h3 := comp_handler_nu_mono g idn0 comp0 u ls.queue
              (flush_handle_id_node idn0 (nuTag ls.st n) ls.trace).1
              (flush_handle_id_node idn0 (nuTag ls.st n) ls.trace).2 n h2
            unfold hasNeedsUpdate
            rw [(children_fields _ _ _ _).1]
            exact h3
          · intro t ht
            apply children_all_scheduled
            rw [← hopeq]
            exact ht
        · right; right
          rcases hq with ⟨hnu, htargets⟩
          constructor
          · have h1 : ((nuTag ls.st n).opFlag i).testBit 0 = true :=
              updF_or_nu_mono _ n i hnu
            have h2 : ((flush_handle_id_node idn0 (nuTag ls.st n) ls.trace).1.opFlag i).testBit 0
                = true := by
              rw [(id_handler_fields _ _ _).2.1]; exact h1
            have h3 := comp_handler_nu_mono g idn0 comp0 u ls.queue
              (flush_handle_id_node idn0 (nuTag ls.st n) ls.trace).1
              (flush_handle_id_node idn0 (nuTag ls.st n) ls.trace).2 i h2
            unfold hasNeedsUpdate
            rw [(children_fields _ _ _ _).1]
            exact h3
          · intro t ht
            apply children_sched_mono
            rw [(comp_handler_fields _ _ _ _ _ _ _).1, (id_handler_fields _ _ _).1]
            exact htargets t ht
      · left; exact hmem
      · right; left; exact hres

/-! The propagation loop: invariant carrier and fuel sufficiency. -/

theorem flushLoop_inv (g : Depsgraph) (u : Bool) (P : LoopState → Prop)
    (hstep : ∀ ls, P ls → P (flushStep g u ls)) :
    ∀ (fuel : Nat) (ls : LoopState), P ls → P (flushLoop g u fuel ls) := by
  intro fuel
  induction fuel with
  | zero => intro ls h; exact h
  | succ m ih =>
    intro ls h
    rw [flushLoop_succ]
    by_cases hd : isDoneB ls = true
    · rw [if_pos hd]; exact h
    · rw [if_neg hd]
      exact ih _ (hstep ls h)

theorem flushLoop_done (g : Depsgraph) (u : Bool) :
    ∀ (fuel : Nat) (ls : LoopState), loopMeasure g ls ≤ fuel →
    isDoneB (flushLoop g u fuel ls) = true := by
  intro fuel
  induction fuel with
  | zero =>
    intro ls h
    show isDoneB ls = true
    cases hact : ls.active with
    | some k =>
      exfalso
      unfold loopMeasure at h
      rw [hact] at h
      simp only [activeWeight] at h
      omega
    | none =>
      unfold loopMeasure at h
      rw [hact] at h
      simp only [activeWeight] at h
      have hq : ls.queue.length = 0 := by omega
      have hq2 : ls.queue = [] := List.length_eq_zero.mp hq
      simp [isDoneB, hact, hq2]
  | succ m ih =>
    intro ls h
    rw [flushLoop_succ]
    by_cases hd : isDoneB ls = true
    · rw [if_pos hd]; exact hd
    · rw [if_neg hd]
      apply ih
      have hd2 : isDoneB ls = false := by
        cases hv : isDoneB ls
        · rfl
        · exact absurd hv hd
      have := flushStep_measure g u ls hd2
      omega

theorem flushRunLS_done (g : Depsgraph) (u : Bool) (s : FlushState) :
    isDoneB (flushRunLS g u s) = true :=
  flushLoop_done g u _ _ (Nat.le_refl _)

/-! Characterization of the loop state right after reset and entry
scheduling. -/

theorem flushInitLS_active (g : Depsgraph) (s : FlushState) :
    (flushInitLS g s).active = none := rfl

theorem flushInitLS_queue (g : Depsgraph) (s : FlushState) :
    (flushInitLS g s).queue = s.entry_tags := by
  unfold flushInitLS flush_schedule_entrypoints
  dsimp only
  rw [entry_fold_queue]
  simp [(flush_prepare_fields g s).2.2]

theorem flushInitLS_sched (g : Depsgraph) (s : FlushState) (j : Nat) :
    (flushInitLS g s).st.scheduled j =
      ((flush_prepare g s).scheduled j || decide (j ∈ s.entry_tags)) := by
  unfold flushInitLS flush_schedule_entrypoints
  dsimp only
  rw [entry_fold_sched, (flush_prepare_fields g s).2.2]

theorem flushInitLS_entry (g : Depsgraph) (s : FlushState) :
    (flushInitLS g s).st.entry_tags = s.entry_tags := by
  unfold flushInitLS flush_schedule_entrypoints
  dsimp only
  rw [(entry_fold_fields _ _).2.2.2.2]
  exact (flush_prepare_fields g s).2.2

theorem flushInitLS_idDone (g : Depsgraph) (s : FlushState) (e : Nat) :
    (flushInitLS g s).st.idDone e = (flush_prepare g s).idDone e := by
  unfold flushInitLS flush_schedule_entrypoints
  dsimp only
  rw [(entry_fold_fields _ _).2.2.1]

theorem flushInitLS_gpc (g : Depsgraph) (s : FlushState) (i : Nat) :
    guardedPushCount i (flushInitLS g s).trace = s.entry_tags.count i := by
  unfold flushInitLS flush_schedule_entrypoints
  dsimp only
  rw [entry_fold_gpc, (flush_prepare_fields g s).2.2]
  simp [guardedPushCount]

theorem flushInitLS_other_counts (g : Depsgraph) (s : FlushState) (e p : Nat) :
    entityVisitCount e (flushInitLS g s).trace = 0 ∧
    notifyCount e (flushInitLS g s).trace = 0 ∧
    recalcCount e (flushInitLS g s).trace = 0 ∧
    recalcDataCount e (flushInitLS g s).trace = 0 ∧
    posePushCount p (flushInitLS g s).trace = 0 := by
  unfold flushInitLS flush_schedule_entrypoints
  dsimp only
  rcases entry_fold_other_counts (flush_prepare g s).entry_tags
    ([], flush_prepare g s, []) e p with ⟨h1, h2, h3, h4, h5⟩
  rw [h1, h2, h3, h4, h5]
  refine ⟨?_, ?_, ?_, ?_, ?_⟩ <;>
    simp [entityVisitCount, notifyCount, recalcCount, recalcDataCount,
      posePushCount]

theorem init_flipInv (g : Depsgraph) (s : FlushState) (i : Nat) :
    flipInv (flushInitLS g s) i := by
  unfold flipInv flushInitLS flush_schedule_entrypoints
  dsimp only
  apply entry_fold_flip_inv
  constructor
  · simp [flipCount]
  · intro h
    simp [flipCount] at h

theorem init_gpcInv (g : Depsgraph) (s : FlushState) (i : Nat)
    (hnd : s.entry_tags.Nodup) : gpcInv (flushInitLS g s) i := by
  constructor
  · rw [flushInitLS_gpc]
    exact List.nodup_iff_count_le_one.mp hnd i
  · intro h1
    rw [flushInitLS_gpc] at h1
    have hmem : i ∈ s.entry_tags := by
      by_contra hn
      rw [List.count_eq_zero_of_not_mem hn] at h1
      omega
    rw [flushInitLS_sched]
    simp [hmem]

theorem init_poseInv (g : Depsgraph) (s : FlushState) (p : Nat) :
    poseInv (flushInitLS g s) p := by
  constructor
  · rw [(flushInitLS_other_counts g s 0 p).2.2.2.2]
    omega
  · intro h1
    rw [(flushInitLS_other_counts g s 0 p).2.2.2.2] at h1
    omega

theorem init_entityInv (g : Depsgraph) (s : FlushState) :
    entityInv g (flushInitLS g s).st (flushInitLS g s).trace := by
  intro e
  rcases flushInitLS_other_counts g s e 0 with ⟨h1, h2, h3, h4, _⟩
  constructor
  · intro _
    exact ⟨h1, h2, h3, h4⟩
  · intro idn hidn
    left
    refine ⟨?_, h1, h2, h3, h4⟩
    rw [flushInitLS_idDone]
    exact flush_prepare_idDone_of (by rw [hidn]; rfl) s

theorem init_INV (g : Depsgraph) (s : FlushState) : InvC2 g (flushInitLS g s) := by
  intro i op hf hs
  left
  rw [flushInitLS_sched] at hs
  rw [flush_prepare_sched_of_op (by rw [hf]; rfl) s] at hs
  simp at hs
  rw [flushInitLS_queue]
  exact hs

/-! Facts about the final loop state. -/

theorem runLS_INV (g : Depsgraph) (u : Bool) (s : FlushState)
    (hwf : wfOwnersB g = true) : InvC2 g (flushRunLS g u s) :=
  flushLoop_inv g u (InvC2 g) (fun ls h => flushStep_INV g u hwf ls h) _ _
    (init_INV g s)

theorem runLS_flipInv (g : Depsgraph) (u : Bool) (s : FlushState) (i : Nat) :
    flipInv (flushRunLS g u s) i :=
  flushLoop_inv g u (fun ls => flipInv ls i)
    (fun ls h => flushStep_flip_inv g u ls i h) _ _ (init_flipInv g s i)

theorem runLS_gpcInv (g : Depsgraph) (u : Bool) (s : FlushState) (i : Nat)
    (hnd : s.entry_tags.Nodup) : gpcInv (flushRunLS g u s) i :=
  flushLoop_inv g u (fun ls => gpcInv ls i)
    (fun ls h => flushStep_gpc_inv g u ls i h) _ _ (init_gpcInv g s i hnd)

theorem runLS_poseInv (g : Depsgraph) (u : Bool) (s : FlushState) (p : Nat) :
    poseInv (flushRunLS g u s) p :=
  flushLoop_inv g u (fun ls => poseInv ls p)
    (fun ls h => flushStep_pose_inv g u ls p h) _ _ (init_poseInv g s p)

theorem runLS_entityInv (g : Depsgraph) (u : Bool) (s : FlushState) :
    entityInv g (flushRunLS g u s).st (flushRunLS g u s).trace :=
  flushLoop_inv g u (fun ls => entityInv g ls.st ls.trace)
    (fun ls h => flushStep_entity_inv g u ls h) _ _ (init_entityInv g s)

theorem runLS_entry (g : Depsgraph) (u : Bool) (s : FlushState) :
    (flushRunLS g u s).st.entry_tags = s.entry_tags :=
  flushLoop_inv g u (fun ls => ls.st.entry_tags = s.entry_tags)
    (fun ls hp => by
      show (flushStep g u ls).st.entry_tags = s.entry_tags
      rw [flushStep_entry]
      exact hp)
    (loopMeasure g (flushInitLS g s)) (flushInitLS g s) (flushInitLS_entry g s)

theorem runLS_sched_mono (g : Depsgraph) (u : Bool) (s : FlushState) (i : Nat)
    (h : (flushInitLS g s).st.scheduled i = true) :
    (flushRunLS g u s).st.scheduled i = true :=
  flushLoop_inv g u (fun ls => ls.st.scheduled i = true)
    (fun ls hp => flushStep_sched_mono g u ls i hp) _ _ h

theorem runLS_processed (g : Depsgraph) (u : Bool) (s : FlushState)
    (hwf : wfOwnersB g = true) {i : Nat} {op : OperationDepsNode}
    (hf : findOp g i = some op)
    (hs : (flushRunLS g u s).st.scheduled i = true) :
    hasNeedsUpdate (flushRunLS g u s).st i = true ∧
    ∀ t ∈ op.outlinks, (flushRunLS g u s).st.scheduled t = true := by
  have hdone := flushRunLS_done g u s
  rw [isDoneB, Bool.and_eq_true] at hdone
  rcases hdone with ⟨ha, hq⟩
  rcases runLS_INV g u s hwf i op hf hs with hmem | hact | hres
  · exfalso
    rw [List.isEmpty_iff] at hq
    rw [hq] at hmem
    cases hmem
  · exfalso
    rw [Option.isNone_iff_eq_none] at ha
    rw [ha] at hact
    cases hact
  · exact hres

theorem entry_sched_final (g : Depsgraph) (u : Bool) (s : FlushState) {i : Nat}
    (hi : i ∈ s.entry_tags) : (flushRunLS g u s).st.scheduled i = true := by
  apply runLS_sched_mono
  rw [flushInitLS_sched]
  simp [hi]

theorem reach_sched_final (g : Depsgraph) (u : Bool) (s : FlushState)
    (hwf : wfOwnersB g = true) :
    ∀ i, Reaches g s.entry_tags i →
    (flushRunLS g u s).st.scheduled i = true := by
  intro i h
  induction h with
  | base i hi _ => exact entry_sched_final g u s hi
  | step i j opx hr hfind hmem _ ih =>
    exact (runLS_processed g u s hwf hfind ih).2 j hmem

/-! Characterization of `deg_graph_clear_tags`. -/

theorem ldiff_idem (x m : Nat) :
    Nat.ldiff (Nat.ldiff x m) m = Nat.ldiff x m := by
  apply Nat.eq_of_testBit_eq
  intro i
  simp only [Nat.testBit_ldiff]
  cases m.testBit i <;> simp

theorem clear_mask_testBit (b : Nat) :
    (DEPSOP_FLAG_DIRECTLY_MODIFIED ||| DEPSOP_FLAG_NEEDS_UPDATE).testBit b =
      decide (b = 0 ∨ b = 1) := by
  have hm : DEPSOP_FLAG_DIRECTLY_MODIFIED ||| DEPSOP_FLAG_NEEDS_UPDATE = 3 := by
    decide
  rw [hm]
  match b with
  | 0 => decide
  | 1 => decide
  | b + 2 =>
    rw [Nat.testBit_succ, Nat.testBit_succ]
    norm_num
    omega

theorem clear_fold_fields (l : List OperationDepsNode) : ∀ s : FlushState,
    (l.foldl graph_clear_func s).scheduled = s.scheduled ∧
    (l.foldl graph_clear_func s).compDone = s.compDone ∧
    (l.foldl graph_clear_func s).idDone = s.idDone ∧
    (l.foldl graph_clear_func s).cowTag = s.cowTag ∧
    (l.foldl graph_clear_func s).entry_tags = s.entry_tags := by
  induction l with
  | nil => intro s; exact ⟨rfl, rfl, rfl, rfl, rfl⟩
  | cons a t ih => intro s; exact ih (graph_clear_func s a)

theorem clear_fold_opFlag (l : List OperationDepsNode) :
    ∀ (s : FlushState) (j : Nat),
    (l.foldl graph_clear_func s).opFlag j =
      if l.any (fun op => op.opId == j) then
        Nat.ldiff (s.opFlag j)
          (DEPSOP_FLAG_DIRECTLY_MODIFIED ||| DEPSOP_FLAG_NEEDS_UPDATE)
      else s.opFlag j := by
  induction l with
  | nil => intro s j; simp
  | cons a t ih =>
    intro s j
    simp only [List.foldl_cons, List.any_cons]
    rw [ih]
    by_cases h : a.opId = j
    · have hstep : (graph_clear_func s a).opFlag j =
          Nat.ldiff (s.opFlag j)
            (DEPSOP_FLAG_DIRECTLY_MODIFIED ||| DEPSOP_FLAG_NEEDS_UPDATE) := by
        simp [graph_clear_func, updF, h]
      rw [hstep]
      by_cases ht : (t.any (fun op => op.opId == j)) = true
      · simp [ht, h, ldiff_idem]
      · simp [ht, h]
    · have hstep : (graph_clear_func s a).opFlag j = s.opFlag j := by
        have h2 : ¬(j = a.opId) := fun hc => h hc.symm
        simp [graph_clear_func, updF, h2]
      rw [hstep]
      simp [h]

theorem clear_char (g : Depsgraph) (s : FlushState) :
    (deg_graph_clear_tags g s).scheduled = s.scheduled ∧
    (deg_graph_clear_tags g s).compDone = s.compDone ∧
    (deg_graph_clear_tags g s).idDone = s.idDone ∧
    (deg_graph_clear_tags g s).cowTag = s.cowTag ∧
    (deg_graph_clear_tags g s).entry_tags = [] ∧
    ∀ j, (deg_graph_clear_tags g s).opFlag j =
      if g.operations.any (fun op => op.opId == j) then
        Nat.ldiff (s.opFlag j)
          (DEPSOP_FLAG_DIRECTLY_MODIFIED ||| DEPSOP_FLAG_NEEDS_UPDATE)
      else s.opFlag j := by
  unfold deg_graph_clear_tags
  dsimp only
  rcases clear_fold_fields g.operations s with ⟨f1, f2, f3, f4, _⟩
  exact ⟨f1, f2, f3, f4, rfl, fun j => clear_fold_opFlag g.operations s j⟩

/-! The claims. -/

/-- Claim C1 (corrected): when the entry set has no duplicates, each
operation's `scheduled` flag flips false-to-true at most once per flush, and
each operation is inserted into the worklist at most once by the
scheduled-guarded insertion points (entry scheduling and child scheduling).
The original claim's "no node is added more than once", counted over all
insertion points including the bone-rule push, fails on `gBonePose`. -/
theorem scheduled_flip_once (g : Depsgraph) (u : Bool) (s : FlushState)
    (hnd : s.entry_tags.Nodup) (i : Nat) :
    flipCount i (deg_graph_flush_updates u g s).2 ≤ 1 ∧
    guardedPushCount i (deg_graph_flush_updates u g s).2 ≤ 1 := by
  unfold deg_graph_flush_updates
  by_cases he : s.entry_tags.length = 0
  · rw [if_pos he]
    constructor <;> simp [flipCount, guardedPushCount]
  · rw [if_neg he]
    exact ⟨(runLS_flipInv g u s i).1, (runLS_gpcInv g u s i hnd).1⟩

/-- Witness for C1 on the two-operation chain graph. -/
theorem scheduled_flip_once_witness :
    sChain.entry_tags.Nodup ∧
    (flipCount 1 (deg_graph_flush_updates true gChain sChain).2 ≤ 1 ∧
     guardedPushCount 1 (deg_graph_flush_updates true gChain sChain).2 ≤ 1) :=
  ⟨by decide, scheduled_flip_once gChain true sChain (by decide) 1⟩

/-- Counterexample to C1 as stated: in `gBonePose` the pose entry operation
(operation 1) is inserted into the worklist twice in one flush — once by
entry scheduling and once by the bone rule's front push, which consults the
pose component's `done` marker but not the operation's `scheduled` flag. -/
theorem worklist_double_insertion_cex :
    ¬ (pushCount 1 (deg_graph_flush_updates false gBonePose sBonePose).2 ≤ 1) := by
  decide

/-- Claim C2 (corrected): on a graph whose owner chains resolve, every
operation reachable from the entry set along outbound links ends the flush
with `NEEDS_UPDATE` set.  The original claim's converse half — that no
unreachable operation is tagged — fails on `gSibling`, because the component
handler blanket-tags every operation its component owns. -/
theorem reachable_needs_update (g : Depsgraph) (u : Bool) (s : FlushState)
    (hwf : wfOwnersB g = true) (i : Nat) (hr : Reaches g s.entry_tags i) :
    hasNeedsUpdate (deg_graph_flush_updates u g s).1 i = true := by
  have hmem : ∃ j, j ∈ s.entry_tags := by
    induction hr with
    | base j hj _ => exact ⟨j, hj⟩
    | step _ _ _ _ _ _ _ ih => exact ih
  have hlen : ¬ s.entry_tags.length = 0 := by
    rcases hmem with ⟨j, hj⟩
    intro hc
    rw [List.length_eq_zero] at hc
    rw [hc] at hj
    cases hj
  have hsome : (findOp g i).isSome = true := by
    cases hr with
    | base _ _ h => exact h
    | step _ _ _ _ _ _ h => exact h
  rcases Option.isSome_iff_exists.mp hsome with ⟨op, hopeq⟩
  unfold deg_graph_flush_updates
  rw [if_neg hlen]
  exact (runLS_processed g u s hwf hopeq (reach_sched_final g u s hwf i hr)).1

/-- Witness for C2 on the two-operation chain graph: operation 1 is reached
through the link from entry operation 0 and ends up tagged. -/
theorem reachable_needs_update_witness :
    wfOwnersB gChain = true ∧ Reaches gChain sChain.entry_tags 1 ∧
    hasNeedsUpdate (deg_graph_flush_updates true gChain sChain).1 1 = true := by
  have hwf : wfOwnersB gChain = true := by decide
  have h0 : Reaches gChain sChain.entry_tags 0 :=
    Reaches.base 0 (by decide) (by decide)
  have h1 : Reaches gChain sChain.entry_tags 1 :=
    Reaches.step 0 1 ⟨0, 0, [1], 10⟩ h0 (by decide) (by decide) (by decide)
  exact ⟨hwf, h1, reachable_needs_update gChain true sChain hwf 1 h1⟩

/-- Counterexample to C2 as stated: in `gSibling`, operation 1 has no inbound
link and is unreachable from the entry set, yet the flush sets its
`NEEDS_UPDATE` bit (it started at zero) because it shares a component with
the entry operation. -/
theorem unreachable_tagged_cex :
    sSibling.opFlag 1 = 0 ∧
    ¬ Reaches gSibling sSibling.entry_tags 1 ∧
    hasNeedsUpdate (deg_graph_flush_updates false gSibling sSibling).1 1 = true := by
  refine ⟨rfl, ?_, by decide⟩
  intro hr
  have hall : ∀ j, Reaches gSibling sSibling.entry_tags j → j = 0 := by
    intro j hj
    induction hj with
    | base k hk _ =>
      have hst : sSibling.entry_tags = [0] := rfl
      rw [hst] at hk
      simp at hk
      exact hk
    | step k j2 op _ hfind hmem _ ih =>
      rw [ih] at hfind
      have hop : op = ⟨0, 0, [], 10⟩ := by
        have hfo : findOp gSibling 0 = some ⟨0, 0, ([] : List Nat), 10⟩ := by
          decide
        rw [hfo] at hfind
        exact (Option.some.inj hfind).symm
      rw [hop] at hmem
      simp at hmem
  exact absurd (hall 1 hr) (by decide)

/-- Claim C3 (corrected): per flush, each entity fires its recalc, data
recalc and notify effects at most once; if the entity handler runs for it at
all, the two recalc calls happen exactly once, while the editor notification
happens exactly once when the entity's CoW copy is expanded and not at all
otherwise.  The original claim's "each effect occurs exactly once" fails for
the notification on the unexpanded entity of `gSibling`. -/
theorem entity_effects_idempotent (g : Depsgraph) (u : Bool) (s : FlushState)
    (e : Nat) (idn : IDDepsNode) (hidn : findIdNode g e = some idn) :
    recalcCount e (deg_graph_flush_updates u g s).2 ≤ 1 ∧
    recalcDataCount e (deg_graph_flush_updates u g s).2 ≤ 1 ∧
    notifyCount e (deg_graph_flush_updates u g s).2 ≤ 1 ∧
    (1 ≤ entityVisitCount e (deg_graph_flush_updates u g s).2 →
      recalcCount e (deg_graph_flush_updates u g s).2 = 1 ∧
      recalcDataCount e (deg_graph_flush_updates u g s).2 = 1 ∧
      notifyCount e (deg_graph_flush_updates u g s).2 =
        (if idn.cowExpanded then 1 else 0)) := by
  unfold deg_graph_flush_updates
  by_cases he : s.entry_tags.length = 0
  · rw [if_pos he]
    refine ⟨?_, ?_, ?_, ?_⟩ <;>
      simp [recalcCount, recalcDataCount, notifyCount, entityVisitCount]
  · rw [if_neg he]
    dsimp only
    rcases (runLS_entityInv g u s e).2 idn hidn with
      ⟨_, hv, hn, hrc, hrd⟩ | ⟨_, hrc, hrd, hn⟩
    · simp [hv, hn, hrc, hrd]
    · refine ⟨by simp [hrc], by simp [hrd], ?_, fun _ => ⟨hrc, hrd, hn⟩⟩
      rw [hn]
      by_cases hc : idn.cowExpanded = true <;> simp [hc]

/-- Witness for C3 on the chain graph's expanded entity 100. -/
theorem entity_effects_idempotent_witness :
    findIdNode gChain 100 = some ⟨100, [10], 0, true⟩ ∧
    (recalcCount 100 (deg_graph_flush_updates true gChain sChain).2 ≤ 1 ∧
     recalcDataCount 100 (deg_graph_flush_updates true gChain sChain).2 ≤ 1 ∧
     notifyCount 100 (deg_graph_flush_updates true gChain sChain).2 ≤ 1 ∧
     (1 ≤ entityVisitCount 100 (deg_graph_flush_updates true gChain sChain).2 →
       recalcCount 100 (deg_graph_flush_updates true gChain sChain).2 = 1 ∧
       recalcDataCount 100 (deg_graph_flush_updates true gChain sChain).2 = 1 ∧
       notifyCount 100 (deg_graph_flush_updates true gChain sChain).2 = 1)) :=
  ⟨by decide,
   entity_effects_idempotent gChain true sChain 100 ⟨100, [10], 0, true⟩ (by decide)⟩

/-- Counterexample to C3 as stated: in `gSibling` the entity handler runs for
entity 100 (its operations are reached), yet no editor notification fires,
because the entity's CoW copy is not expanded. -/
theorem notify_skipped_unexpanded_cex :
    1 ≤ entityVisitCount 100 (deg_graph_flush_updates false gSibling sSibling).2 ∧
    notifyCount 100 (deg_graph_flush_updates false gSibling sSibling).2 = 0 := by
  decide

/-- Claim C4 (confirmed): the bone rule pushes a given pose component's entry
operation onto the front of the worklist at most once per flush, guarded by
the pose component's `done` marker leaving the NONE state on the first
push. -/
theorem pose_entry_push_at_most_once (g : Depsgraph) (u : Bool)
    (s : FlushState) (p : Nat) :
    posePushCount p (deg_graph_flush_updates u g s).2 ≤ 1 := by
  unfold deg_graph_flush_updates
  by_cases he : s.entry_tags.length = 0
  · rw [if_pos he]
    simp [posePushCount]
  · rw [if_neg he]
    exact (runLS_poseInv g u s p).1

/-- Claim C5 (confirmed): the component handler's blanket re-tag step leaves
a particle-settings-evaluation operation's flags untouched, while every other
operation the component owns comes out with `NEEDS_UPDATE` set. -/
theorem particle_settings_excluded (g : Depsgraph) (idn : IDDepsNode)
    (comp : ComponentDepsNode) (u : Bool) (q : List Nat) (s : FlushState)
    (tr : List Event) (j : Nat) (op : OperationDepsNode)
    (hf : findOp g j = some op) (hmem : j ∈ comp.operations)
    (hd : s.compDone comp.compId ≠ COMPONENT_STATE_DONE) :
    (op.opcode = DEG_OPCODE_PARTICLE_SETTINGS_EVAL →
      (flush_handle_component_node g idn comp u q s tr).2.1.opFlag j =
        s.opFlag j) ∧
    (op.opcode ≠ DEG_OPCODE_PARTICLE_SETTINGS_EVAL →
      ((flush_handle_component_node g idn comp u q s tr).2.1.opFlag j).testBit 0 =
        true) :=
  ⟨fun hp => comp_handler_opFlag_particle g idn comp u q s tr hf hp,
   fun hp => comp_handler_blanket g idn comp u q s tr hf hp hmem hd⟩

/-- Witness for C5 on `gParticle`: the particle-settings operation 2 keeps a
zero flag word when its component is handled. -/
theorem particle_settings_excluded_witness :
    (findOp gParticle 2 =
      some ⟨2, DEG_OPCODE_PARTICLE_SETTINGS_EVAL, [], 10⟩ ∧
     2 ∈ (⟨10, DEG_NODE_TYPE_GEOMETRY, 100, [0, 2], 0, false⟩ :
       ComponentDepsNode).operations ∧
     sParticle.compDone 10 ≠ COMPONENT_STATE_DONE) ∧
    ((⟨2, DEG_OPCODE_PARTICLE_SETTINGS_EVAL, [], 10⟩ :
        OperationDepsNode).opcode = DEG_OPCODE_PARTICLE_SETTINGS_EVAL →
      (flush_handle_component_node gParticle ⟨100, [10], 0, false⟩
        ⟨10, DEG_NODE_TYPE_GEOMETRY, 100, [0, 2], 0, false⟩ false [] sParticle
        []).2.1.opFlag 2 = sParticle.opFlag 2) ∧
    ((⟨2, DEG_OPCODE_PARTICLE_SETTINGS_EVAL, [], 10⟩ :
        OperationDepsNode).opcode ≠ DEG_OPCODE_PARTICLE_SETTINGS_EVAL →
      ((flush_handle_component_node gParticle ⟨100, [10], 0, false⟩
        ⟨10, DEG_NODE_TYPE_GEOMETRY, 100, [0, 2], 0, false⟩ false [] sParticle
        []).2.1.opFlag 2).testBit 0 = true) :=
  ⟨⟨by decide, by decide, by decide⟩,
   particle_settings_excluded gParticle ⟨100, [10], 0, false⟩
     ⟨10, DEG_NODE_TYPE_GEOMETRY, 100, [0, 2], 0, false⟩ false [] sParticle []
     2 ⟨2, DEG_OPCODE_PARTICLE_SETTINGS_EVAL, [], 10⟩
     (by decide) (by decide) (by decide)⟩

/-- Claim C6 (confirmed): with an empty entry set the flush returns
immediately: the state comes back unchanged and no event is emitted. -/
theorem empty_entry_noop (g : Depsgraph) (u : Bool) (s : FlushState)
    (he : s.entry_tags = []) : deg_graph_flush_updates u g s = (s, []) := by
  unfold deg_graph_flush_updates
  rw [he]
  simp

/-- Witness for C6 on a fresh state with an empty entry set. -/
theorem empty_entry_noop_witness :
    (baseState []).entry_tags = [] ∧
    deg_graph_flush_updates false gChain (baseState []) = (baseState [], []) :=
  ⟨rfl, empty_entry_noop gChain false (baseState []) rfl⟩

/-- Claim C7 (confirmed): the flush terminates on every finite graph: run
with fuel equal to the initial termination measure (which is bounded by the
graph's node and edge counts), the worklist loop reaches the state with no
active node and an empty queue. -/
theorem flush_terminates (g : Depsgraph) (u : Bool) (s : FlushState) :
    (flushRunLS g u s).active = none ∧ (flushRunLS g u s).queue = [] := by
  have h := flushRunLS_done g u s
  rw [isDoneB, Bool.and_eq_true] at h
  exact ⟨Option.isNone_iff_eq_none.mp h.1, List.isEmpty_iff.mp h.2⟩

/-- Claim C8 (corrected): during the propagation loop, no single step moves a
component's `done` marker backwards along NONE (0) → SCHEDULED (1) →
DONE (2).  The original claim's "never regresses within one call of
flush_updates" fails because the call's initial reset moves a stale DONE
marker back to NONE, as `gStale` shows. -/
theorem comp_done_step_monotone (g : Depsgraph) (u : Bool) (ls : LoopState)
    (c : Nat) (hv : ls.st.compDone c ≤ COMPONENT_STATE_DONE) :
    ls.st.compDone c ≤ (flushStep g u ls).st.compDone c := by
  rcases flushStep_done_progress g u ls c with h | h | ⟨h1, h2⟩
  · rw [h]
  · rw [h]; exact hv
  · rw [h1, h2]; decide

/-- Witness for C8: one step on `gStale` keeps component 20's stale DONE
marker. -/
theorem comp_done_step_monotone_witness :
    sStale.compDone 20 ≤ COMPONENT_STATE_DONE ∧
    sStale.compDone 20 ≤
      (flushStep gStale false ⟨[0], none, sStale, []⟩).st.compDone 20 :=
  ⟨by decide,
   comp_done_step_monotone gStale false ⟨[0], none, sStale, []⟩ 20 (by decide)⟩

/-- Counterexample to C8 as stated: component 20 of `gStale` enters the
flush call with `done = DONE` and leaves it with `done = NONE` — the
prepare phase resets every component marker and component 20 is never
visited afterwards. -/
theorem comp_done_reset_regress_cex :
    sStale.compDone 20 = COMPONENT_STATE_DONE ∧
    (deg_graph_flush_updates false gStale sStale).1.compDone 20 =
      COMPONENT_STATE_NONE := by
  decide

/-- Claim C9 (confirmed): clearing tags twice equals clearing them once; one
clear leaves the entry set empty and both pending-update bits
(`NEEDS_UPDATE`, bit 0, and `DIRECTLY_MODIFIED`, bit 1) clear on every
operation of the graph. -/
theorem clear_tags_idempotent (g : Depsgraph) (s : FlushState) :
    deg_graph_clear_tags g (deg_graph_clear_tags g s) =
      deg_graph_clear_tags g s ∧
    (deg_graph_clear_tags g s).entry_tags = [] ∧
    g.operations.all (fun op =>
      !((deg_graph_clear_tags g s).opFlag op.opId).testBit 0 &&
      !((deg_graph_clear_tags g s).opFlag op.opId).testBit 1) = true := by
  rcases clear_char g s with ⟨c1, c2, c3, c4, c5, c6⟩
  rcases clear_char g (deg_graph_clear_tags g s) with ⟨d1, d2, d3, d4, d5, d6⟩
  refine ⟨?_, c5, ?_⟩
  · refine FlushState.ext d1 ?_ d2 d3 d4 (d5.trans c5.symm)
    funext j
    rw [d6 j, c6 j]
    by_cases h : (g.operations.any (fun op => op.opId == j)) = true
    · simp [h, ldiff_idem]
    · simp [h]
  · rw [List.all_eq_true]
    intro op hmem
    have hany : g.operations.any (fun op2 => op2.opId == op.opId) = true :=
      List.any_eq_true.mpr ⟨op, hmem, by simp⟩
    have hflag := c6 op.opId
    rw [if_pos hany] at hflag
    rw [hflag]
    have hb0 : (DEPSOP_FLAG_DIRECTLY_MODIFIED |||
      DEPSOP_FLAG_NEEDS_UPDATE).testBit 0 = true := by decide
    have hb1 : (DEPSOP_FLAG_DIRECTLY_MODIFIED |||
      DEPSOP_FLAG_NEEDS_UPDATE).testBit 1 = true := by decide
    simp only [Nat.testBit_ldiff, hb0, hb1]
    simp

/-- Claim C10 (confirmed): the flush never changes the entry set; only the
tag clear empties it, and on each operation node of the graph the clear
removes exactly bits 0 and 1 (`NEEDS_UPDATE` and `DIRECTLY_MODIFIED`) of the
flag word, leaving every other bit — and the flags of indices that are not
operation nodes of the graph — unchanged. -/
theorem flush_preserves_entry_tags (g : Depsgraph) (u : Bool)
    (s : FlushState) :
    (deg_graph_flush_updates u g s).1.entry_tags = s.entry_tags ∧
    (deg_graph_clear_tags g s).entry_tags = [] ∧
    ∀ j b : Nat, ((deg_graph_clear_tags g s).opFlag j).testBit b =
      (if g.operations.any (fun op => op.opId == j) then
        ((s.opFlag j).testBit b && !(decide (b = 0 ∨ b = 1)))
      else (s.opFlag j).testBit b) := by
  rcases clear_char g s with ⟨_, _, _, _, c5, c6⟩
  refine ⟨?_, c5, ?_⟩
  · unfold deg_graph_flush_updates
    by_cases he : s.entry_tags.length = 0
    · rw [if_pos he]
    · rw [if_neg he]
      exact runLS_entry g u s
  · intro j b
    rw [c6 j]
    by_cases h : (g.operations.any (fun op => op.opId == j)) = true
    · simp only [if_pos h]
      rw [Nat.testBit_ldiff, clear_mask_testBit]
    · simp only [if_neg h]

end DEG
